import Mathlib

/-!
Shallow embedding of the job-execution / resource-coordination core of the
scrap2 repository, together with proofs of the frozen claims about it.

Sources embedded:
- `src/deposit-match.ts` (text normalization, exact row matching, row selection)
- `src/deposit-job.ts` (`parseLocalizedMoney`, `waitForDepositResult`,
  `computeExpectedUserBalance`, `verifyWithRetryAndBalanceFallback`)
- `src/jobs.ts` (`JobManager`: enqueue/executor transitions, `getById`,
  `markExpiredIfNeeded`, periodic sweep)
- the funds session pool (`acquireFundsSessionLease`, `release`/`invalidate`,
  promise-chained per-key mutex)

Machine numbers that the TypeScript code manipulates as IEEE doubles are
modelled as rationals (`ℚ`); the money strings handled here keep at most a
few decimal digits, where double and rational arithmetic agree.
Wall-clock instants are modelled as `Nat` milliseconds.
-/

namespace DepositMatch

/-- Combining diacritical marks range `[̀-ͯ]` removed by
`normalizeDepositText` after NFKD decomposition. -/
def isCombiningMark (c : Char) : Bool :=
  0x300 ≤ c.toNat && c.toNat ≤ 0x36F

/-- NFKD decomposition for the characters this code path meets (Latin letters
with diacritics as used by the Spanish-language operator UI); characters
without a listed decomposition map to themselves, as NFKD leaves them
unchanged. -/
def nfkdChar (c : Char) : List Char :=
  match c with
  | 'á' => ['a', '́'] | 'é' => ['e', '́'] | 'í' => ['i', '́']
  | 'ó' => ['o', '́'] | 'ú' => ['u', '́'] | 'ñ' => ['n', '̃']
  | 'ü' => ['u', '̈'] | 'Á' => ['A', '́'] | 'É' => ['E', '́']
  | 'Í' => ['I', '́'] | 'Ó' => ['O', '́'] | 'Ú' => ['U', '́']
  | 'Ñ' => ['N', '̃'] | 'Ü' => ['U', '̈']
  | _ => [c]

/-- The whitespace characters matched by the JavaScript `\s` class that can
occur in scraped row text. -/
def isJsWhitespace (c : Char) : Bool :=
  c.toNat = 9 || c.toNat = 10 || c.toNat = 11 || c.toNat = 12 || c.toNat = 13 ||
  c.toNat = 32 || c.toNat = 0xA0 || (0x2000 ≤ c.toNat && c.toNat ≤ 0x200A) ||
  c.toNat = 0x2028 || c.toNat = 0x2029 || c.toNat = 0x202F || c.toNat = 0x205F ||
  c.toNat = 0x3000 || c.toNat = 0xFEFF

/-- JavaScript `.replace(/\s+/g, ' ')`, with `prevWs` recording whether the previous
character belonged to a whitespace run already emitted as one space. -/
def collapseWsAux : Bool → List Char → List Char
  | _, [] => []
  | prevWs, c :: cs =>
    if isJsWhitespace c then
      if prevWs then collapseWsAux true cs else ' ' :: collapseWsAux true cs
    else
      c :: collapseWsAux false cs

/-- JavaScript `.replace(/\s+/g, ' ')`: every maximal whitespace run becomes a single
space. -/
def collapseWs (l : List Char) : List Char :=
  collapseWsAux false l

/-- JavaScript `.trim()` on a string whose interior whitespace is already collapsed. -/
def trimChars (l : List Char) : List Char :=
  ((l.dropWhile isJsWhitespace).reverse.dropWhile isJsWhitespace).reverse

/-- Embedding of `normalizeDepositText` (src/deposit-match.ts:12): NFKD-decompose, strip
combining marks, lowercase, collapse whitespace runs to single spaces, trim. -/
def normalizeDepositText (input : String) : String :=
  String.mk
    (trimChars
      (collapseWs
        (((input.data.flatMap nfkdChar).filter (fun c => !isCombiningMark c)).map
          Char.toLower)))

/-- The character class `[a-z0-9_]` of the boundary regex, under the `i` flag
(so ASCII uppercase letters are word characters too). -/
def isWordChar (c : Char) : Bool :=
  ('a' ≤ c && c ≤ 'z') || ('A' ≤ c && c ≤ 'Z') || ('0' ≤ c && c ≤ '9') || c = '_'

/-- A boundary position is acceptable when there is no neighbouring character
(string start/end) or the neighbour is not a word character. -/
def boundaryOk : Option Char → Bool
  | none => true
  | some c => !isWordChar c

/-- Case-insensitive literal match of `u` against a leading segment of `v`
(the regex runs with the `i` flag). -/
def leadingMatchCI : List Char → List Char → Bool
  | [], _ => true
  | _ :: _, [] => false
  | a :: u, b :: v => (a.toLower = b.toLower) && leadingMatchCI u v

/-- Test of `(^|[^a-z0-9_])u([^a-z0-9_]|$)` against `v`: some occurrence of
`u` in `v` is delimited on both sides by a non-word character or the ends of
the string. `prev` is the character immediately before the position tried. -/
def boundaryMatchAux (u : List Char) : Option Char → List Char → Bool
  | prev, [] => leadingMatchCI u [] && boundaryOk prev
  | prev, c :: rest =>
    (leadingMatchCI u (c :: rest) && boundaryOk prev &&
      boundaryOk ((c :: rest).drop u.length).head?)
    || boundaryMatchAux u (some c) rest

/-- Embedding of `hasExactUsernameMatch` (src/deposit-match.ts:21): normalize both sides;
an empty normalized side never matches; otherwise require a
boundary-delimited occurrence of the normalized username. -/
def hasExactUsernameMatch (value username : String) : Bool :=
  let normalizedValue := normalizeDepositText value
  let normalizedUsername := normalizeDepositText username
  if normalizedValue.isEmpty || normalizedUsername.isEmpty then
    false
  else
    boundaryMatchAux normalizedUsername.data none normalizedValue.data

/-- Structure `DepositRowCandidate` (src/deposit-match.ts:1). -/
structure DepositRowCandidate where
  index : Nat
  hasAction : Bool
  usernames : List String
  normalizedText : String
deriving DecidableEq, Repr

/-- The per-candidate test applied inside `selectDepositRowIndex`: some
displayed username matches exactly, or the row text does. -/
def rowMatches (username : String) (candidate : DepositRowCandidate) : Bool :=
  candidate.usernames.any (fun value => hasExactUsernameMatch value username)
  || hasExactUsernameMatch candidate.normalizedText username

/-- Embedding of `selectDepositRowIndex` (src/deposit-match.ts:32), with `throw` embedded
as `Except.error`. -/
def selectDepositRowIndex (candidates : List DepositRowCandidate)
    (username : String) : Except String Nat :=
  let actionable := candidates.filter (fun c => c.hasAction)
  if actionable.length = 0 then
    Except.error ("No actionable rows found while searching for user \"" ++ username ++ "\"")
  else
    let exact := actionable.filter (rowMatches username)
    match exact with
    | [c] => Except.ok c.index
    | [] =>
      Except.error ("Could not find an exact unique match for user \"" ++ username ++
        "\" in users list (actionable rows: " ++ toString actionable.length ++ ").")
    | _ =>
      Except.error ("Multiple exact matches found for user \"" ++ username ++
        "\" (" ++ toString exact.length ++ ")")

/-- The `exact` list computed inside `selectDepositRowIndex`: the actionable
candidates whose usernames or row text match the target exactly. -/
def matchingRows (candidates : List DepositRowCandidate) (username : String) :
    List DepositRowCandidate :=
  (candidates.filter (fun c => c.hasAction)).filter (rowMatches username)

end DepositMatch



deriving instance DecidableEq for Except

namespace Money

/-- The characters surviving `replace(/[^0-9,.-]/g, '')`. -/
def keepChar (c : Char) : Bool :=
  c.isDigit || c = ',' || c = '.' || c = '-'

/-- JavaScript `String.prototype.lastIndexOf`: index of the last occurrence
of `c`, `-1` when absent. -/
def jsLastIndexOf (l : List Char) (c : Char) : Int :=
  match l with
  | [] => -1
  | a :: rest =>
    let r := jsLastIndexOf rest c
    if 0 ≤ r then r + 1 else if a = c then 0 else -1

/-- JavaScript `String.prototype.split(sep)` on character lists. -/
def splitOnChar (sep : Char) : List Char → List (List Char)
  | [] => [[]]
  | c :: rest =>
    let r := splitOnChar sep rest
    if c = sep then [] :: r
    else
      match r with
      | [] => [[c]]
      | h :: t => (c :: h) :: t

/-- Decimal value of a digit string, accumulated the way `Number` scans it. -/
def digitsVal (l : List Char) : Nat :=
  l.foldl (fun acc c => acc * 10 + (c.toNat - 48)) 0

/-- JavaScript `Number(s)` on the unsigned bodies reachable here: digit
characters with at most one `.`; anything else (two dots, a stray separator)
is `NaN`, embedded as `none`. -/
def jsNumberBody (l : List Char) : Option ℚ :=
  let intPart := l.takeWhile (fun c => c ≠ '.')
  let rest := l.dropWhile (fun c => c ≠ '.')
  match rest with
  | [] => if l.all Char.isDigit && !l.isEmpty then some (digitsVal l) else none
  | _ :: frac =>
    if frac.contains '.' then none
    else if intPart.all Char.isDigit && frac.all Char.isDigit &&
        (!intPart.isEmpty || !frac.isEmpty) then
      some ((digitsVal intPart : ℚ) + (digitsVal frac : ℚ) / (10 : ℚ) ^ frac.length)
    else none

/-- JavaScript `Number(s)` including the optional leading minus sign;
`Number('')` is `0`, `Number('-')` is `NaN`. -/
def jsNumber (l : List Char) : Option ℚ :=
  match l with
  | [] => some 0
  | a :: rest =>
    if a = '-' then
      if rest.isEmpty then none else (jsNumberBody rest).map (fun q => -q)
    else
      jsNumberBody (a :: rest)

/-- Embedding of `parseLocalizedMoney` (src/deposit-job.ts:128), with `throw` embedded as
`Except.error`. `trim()` and the `\s` removal are subsumed by the character
filter, since no whitespace character is in `[0-9,.-]`. -/
def parseLocalizedMoney (rawValue : String) : Except String ℚ :=
  let compact := rawValue.data.filter keepChar
  if !compact.any Char.isDigit then
    Except.error ("Could not parse money value \"" ++ rawValue ++ "\"")
  else
    let sign : List Char := if compact.head? = some '-' then ['-'] else []
    let unsigned := compact.filter (fun c => c ≠ '-')
    let normalized :=
      if unsigned.contains ',' && unsigned.contains '.' then
        if jsLastIndexOf unsigned '.' < jsLastIndexOf unsigned ',' then
          (unsigned.filter (fun c => c ≠ '.')).map (fun c => if c = ',' then '.' else c)
        else
          unsigned.filter (fun c => c ≠ ',')
      else if unsigned.contains ',' then
        let parts := splitOnChar ',' unsigned
        let decimalPart := (parts.getLast?).getD []
        let joined := parts.dropLast.flatten
        let integerPart := if joined.isEmpty then ['0'] else joined
        integerPart ++ '.' :: decimalPart
      else
        unsigned
    match jsNumber (sign ++ normalized) with
    | some parsed => Except.ok parsed
    | none => Except.error ("Could not parse money value \"" ++ rawValue ++ "\"")

end Money



namespace Jobs

/-- Enum `JobStepStatus` (types.ts). -/
inductive JobStepStatus where
  | ok
  | failed
  | skipped
deriving DecidableEq, Repr

/-- Structure `JobStepResult` (types.ts). ISO-8601 instants are modelled as `Nat`
milliseconds. -/
structure JobStepResult where
  name : String
  status : JobStepStatus
  startedAt : Nat
  finishedAt : Nat
  artifactPath : Option String := none
  error : Option String := none
deriving DecidableEq, Repr

/-- Modelled from the spec: the kind-specific `result` payload (`JobResult`)
referenced by `jobs.ts` is declared in a revision of `types.ts` that is not
among the provided sources; the spec only requires an opaque result value
carried verbatim on the record, so it is one opaque field here. -/
structure JobResult where
  payload : String
deriving DecidableEq, Repr

/-- Structure `JobExecutionResult` as consumed by `jobs.ts` (artifact paths, step
history and the optional kind-specific result). -/
structure JobExecutionResult where
  artifactPaths : List String
  steps : List JobStepResult
  result : Option JobResult := none
deriving DecidableEq, Repr

/-- Enum `JobStatus` (types.ts). -/
inductive JobStatus where
  | queued
  | running
  | succeeded
  | failed
  | expired
deriving DecidableEq, Repr

/-- Embedding of `isTerminal` (src/jobs.ts:12). -/
def isTerminal (status : JobStatus) : Bool :=
  status = JobStatus.succeeded || status = JobStatus.failed || status = JobStatus.expired

/-- Structure `JobStoreEntry` (the revision used by `jobs.ts`, including `result`).
The ISO timestamp strings are modelled directly by their `toMillis` parse:
`none` stands for an absent or unparsable timestamp. -/
structure JobStoreEntry where
  id : String
  jobType : String
  status : JobStatus
  createdAt : Option Nat
  startedAt : Option Nat := none
  finishedAt : Option Nat := none
  error : Option String := none
  artifactPaths : List String := []
  steps : List JobStepResult := []
  result : Option JobResult := none
deriving DecidableEq, Repr

/-- Embedding of `markExpiredIfNeeded` (src/jobs.ts:131): terminal, not-yet-expired
entries whose reference instant (`finishedAt ?? startedAt ?? createdAt`) is
older than the TTL flip to `expired`; everything else is returned as-is. -/
def markExpiredIfNeeded (now ttlMs : Nat) (entry : JobStoreEntry) : JobStoreEntry :=
  if !isTerminal entry.status || entry.status = JobStatus.expired then
    entry
  else
    match (entry.finishedAt.orElse fun _ => entry.startedAt.orElse fun _ => entry.createdAt) with
    | none => entry
    | some referenceMs =>
      if ttlMs < now - referenceMs then { entry with status := JobStatus.expired }
      else entry

/-- The in-memory job map (`entries : Map<string, JobStoreEntry>`), as an
insertion-ordered association list. -/
abbrev JobMap := List (String × JobStoreEntry)

/-- JavaScript `Map.get`. -/
def mapGet (m : JobMap) (id : String) : Option JobStoreEntry :=
  (m.find? (fun p => p.1 == id)).map (fun p => p.2)

/-- JavaScript `Map.set`: replace in place, or append when absent. -/
def mapSet : JobMap → String → JobStoreEntry → JobMap
  | [], id, e => [(id, e)]
  | (k, v) :: rest, id, e =>
    if k == id then (id, e) :: rest else (k, v) :: mapSet rest id e

/-- The fresh record written by `enqueue` (src/jobs.ts:50) before the limiter
admits the job. -/
def enqueueEntry (id jobType : String) (createdAt : Option Nat) : JobStoreEntry :=
  { id := id, jobType := jobType, status := JobStatus.queued, createdAt := createdAt,
    artifactPaths := [], steps := [] }

/-- Embedding of `enqueue` writing the queued record into the map. -/
def enqueue (m : JobMap) (id jobType : String) (createdAt : Option Nat) : JobMap :=
  mapSet m id (enqueueEntry id jobType createdAt)

/-- The limiter-admission write (src/jobs.ts:61): the record becomes
`running` with `startedAt` stamped. -/
def startRun (m : JobMap) (id : String) (startedAt : Nat) : JobMap :=
  match mapGet m id with
  | none => m
  | some e => mapSet m id { e with status := JobStatus.running, startedAt := some startedAt }

/-- Embedding of `cloneJobResult` (src/jobs.ts:25): a shallow copy, which is the identity
in a pure model. -/
def cloneJobResult (result : Option JobResult) : Option JobResult :=
  result

/-- The executor-resolution write (src/jobs.ts:70). -/
def completeOk (m : JobMap) (id : String) (finishedAt : Nat)
    (res : JobExecutionResult) : JobMap :=
  match mapGet m id with
  | none => m
  | some e =>
    mapSet m id
      { e with
        status := JobStatus.succeeded
        finishedAt := some finishedAt
        artifactPaths := res.artifactPaths
        steps := res.steps
        result := cloneJobResult res.result }

/-- The catch-branch write (src/jobs.ts:78): the thrown error's message plus
any `artifactPaths`/`steps` arrays attached to the error object (empty arrays
when absent, mirroring the `Array.isArray` guards). The branch is a total
function of the thrown data: no executor exception propagates further. -/
def completeErr (m : JobMap) (id : String) (finishedAt : Nat) (message : String)
    (errArtifactPaths : Option (List String))
    (errSteps : Option (List JobStepResult)) : JobMap :=
  match mapGet m id with
  | none => m
  | some e =>
    mapSet m id
      { e with
        status := JobStatus.failed
        finishedAt := some finishedAt
        error := some message
        artifactPaths := errArtifactPaths.getD []
        steps := errSteps.getD []
        result := none }

/-- Embedding of `getById` (src/jobs.ts:104): applies `markExpiredIfNeeded` synchronously,
stores the possibly-flipped entry back, and returns it (the deep copy on read
is the identity in a pure model). -/
def getById (now ttlMs : Nat) (m : JobMap) (id : String) :
    Option JobStoreEntry × JobMap :=
  match mapGet m id with
  | none => (none, m)
  | some current =>
    let maybeExpired := markExpiredIfNeeded now ttlMs current
    (some maybeExpired, mapSet m id maybeExpired)

/-- Embedding of `cleanupExpiredJobs` (src/jobs.ts:124): the periodic sweep applies
`markExpiredIfNeeded` to every entry. -/
def cleanupExpiredJobs (now ttlMs : Nat) (m : JobMap) : JobMap :=
  m.map (fun p => (p.1, markExpiredIfNeeded now ttlMs p.2))

/-- Forward order of the status lifecycle
`queued → running → {succeeded | failed} → expired`. -/
def statusAdvances : JobStatus → JobStatus → Bool
  | JobStatus.queued, _ => true
  | JobStatus.running, JobStatus.queued => false
  | JobStatus.running, _ => true
  | JobStatus.succeeded, s => s = JobStatus.succeeded || s = JobStatus.expired
  | JobStatus.failed, s => s = JobStatus.failed || s = JobStatus.expired
  | JobStatus.expired, s => s = JobStatus.expired

/-- The record-level transitions the `JobManager` performs after creation,
with the guard under which the single-threaded event loop applies each (the
limiter admits only queued jobs, the executor settles only the running job,
and the sweep/read path may touch any record). -/
inductive ManagerOp where
  | admitRun (startedAt : Nat)
  | completeOk (finishedAt : Nat) (res : JobExecutionResult)
  | completeErr (finishedAt : Nat) (message : String)
      (errArtifactPaths : Option (List String)) (errSteps : Option (List JobStepResult))
  | expireCheck (now ttlMs : Nat)

/-- Guard: the entry's status when the event loop runs the operation. -/
def opGuard : ManagerOp → JobStoreEntry → Prop
  | ManagerOp.admitRun _, e => e.status = JobStatus.queued
  | ManagerOp.completeOk _ _, e => e.status = JobStatus.running
  | ManagerOp.completeErr _ _ _ _, e => e.status = JobStatus.running
  | ManagerOp.expireCheck _ _, _ => True

/-- Effect of each operation on the record, mirroring the corresponding
`entries.set` spread expressions in `jobs.ts`. -/
def applyManagerOp : ManagerOp → JobStoreEntry → JobStoreEntry
  | ManagerOp.admitRun t, e => { e with status := JobStatus.running, startedAt := some t }
  | ManagerOp.completeOk t res, e =>
    { e with
      status := JobStatus.succeeded
      finishedAt := some t
      artifactPaths := res.artifactPaths
      steps := res.steps
      result := cloneJobResult res.result }
  | ManagerOp.completeErr t message errArtifactPaths errSteps, e =>
    { e with
      status := JobStatus.failed
      finishedAt := some t
      error := some message
      artifactPaths := errArtifactPaths.getD []
      steps := errSteps.getD []
      result := none }
  | ManagerOp.expireCheck now ttlMs, e => markExpiredIfNeeded now ttlMs e

end Jobs

namespace Pool

/-!
The funds session pool (`acquireFundsSessionLease`) serializes acquisitions
for one cache key through a chained-promise mutex: each arriving call reads
the current tail of the chain (`previous`), appends its own `hold` promise,
and awaits `previous`, which by construction resolves exactly when every
earlier arrival's `hold` has been resolved by that arrival's
`release`/`invalidate` (`finishLock`). The model below is a small-step
system on the per-key arrival list: an arrival is `waiting` until its
`await previous` completes, `holding` while it owns the lease, and
`released` once it has unlocked. The `proceed` guard — all earlier arrivals
released — is precisely the resolution condition of the chained promise.
-/

/-- Status of one `acquireFundsSessionLease` call on a fixed cache key. -/
inductive LeaseStatus where
  | waiting
  | holding
  | released
deriving DecidableEq, Repr

/-- The per-key state: arrivals in FIFO order of their `acquire` calls. -/
abbrev KeyState := List LeaseStatus

/-- One cooperative-scheduling step of the promise-chain mutex. -/
inductive PoolStep : KeyState → KeyState → Prop where
  | arrive (s : KeyState) : PoolStep s (s ++ [LeaseStatus.waiting])
  | proceed (s : KeyState) (i : Nat)
      (hw : s.get? i = some LeaseStatus.waiting)
      (hprev : ∀ j, j < i → s.get? j = some LeaseStatus.released) :
      PoolStep s (s.set i LeaseStatus.holding)
  | finish (s : KeyState) (i : Nat)
      (hh : s.get? i = some LeaseStatus.holding) :
      PoolStep s (s.set i LeaseStatus.released)

/-- States reachable from the empty chain. -/
inductive Reachable : KeyState → Prop where
  | nil : Reachable []
  | step {s t : KeyState} : Reachable s → PoolStep s t → Reachable t

/-- The mutex invariant: at most one holder, and everyone that arrived
before a holder has already released (FIFO service order). -/
def MutexInv (s : KeyState) : Prop :=
  (∀ i j, s.get? i = some LeaseStatus.holding → s.get? j = some LeaseStatus.holding → i = j)
  ∧ (∀ i j, j < i → s.get? i = some LeaseStatus.holding →
      s.get? j = some LeaseStatus.released)

/-- Pool-entry view used by the lease model: whether the map still holds an
entry for the key, and its `lastUsedAt` stamp. -/
structure FundsSessionEntry where
  cacheKey : String
  lastUsedAt : Nat
deriving DecidableEq, Repr

/-- State a pooled lease closes over: the pool slot for its cache key, the
per-key lock (this lease's un-resolved `hold`), and the lease's `released`
guard flag. -/
structure LeaseState where
  entry : Option FundsSessionEntry
  lockHeld : Bool
  released : Bool
deriving DecidableEq, Repr

/-- Embedding of `release` (the pooled branch of `acquireFundsSessionLease`): a no-op once
`released` is set; otherwise refresh `lastUsedAt`, set the flag and run
`finishLock` (unlock). -/
def releaseLease (now : Nat) (s : LeaseState) : LeaseState :=
  if s.released then s
  else
    { entry := s.entry.map (fun e => { e with lastUsedAt := now })
      lockHeld := false
      released := true }

/-- Embedding of `invalidate`: a no-op once `released` is set; otherwise delete the pool
entry, run `closeEntry` — whose context/browser `close()` rejections are both
swallowed by `.catch(() => undefined)`, so teardown failure (`teardownFails`)
cannot alter the outcome — and then run `finishLock` (unlock). -/
def invalidateLease (teardownFails : Bool) (s : LeaseState) : LeaseState :=
  if s.released then s
  else
    { entry := none
      lockHeld := false
      released := true }

end Pool

namespace Verify

open Jobs (JobStepStatus JobStepResult)

/-- Enum `FundsTransactionOperation` (types.ts). -/
inductive FundsTransactionOperation where
  | carga
  | descarga
  | descarga_total
deriving DecidableEq, Repr

/-- The string value of the operation enum, as interpolated into messages. -/
def opName : FundsTransactionOperation → String
  | FundsTransactionOperation.carga => "carga"
  | FundsTransactionOperation.descarga => "descarga"
  | FundsTransactionOperation.descarga_total => "descarga_total"

/-- Constant `TARGET_PATH_BY_OPERATION` (src/deposit-job.ts:43). -/
def targetPathByOperation : FundsTransactionOperation → String
  | FundsTransactionOperation.carga => "/users/deposit"
  | FundsTransactionOperation.descarga => "/users/withdraw"
  | FundsTransactionOperation.descarga_total => "/users/withdraw"

/-- Whether `needle` matches the start of `haystack`, character by
character. -/
def startsWithChars : List Char → List Char → Bool
  | [], _ => true
  | _ :: _, [] => false
  | a :: u, b :: v => a = b && startsWithChars u v

/-- Whether `needle` occurs contiguously inside `haystack`. -/
def occursIn (needle : List Char) : List Char → Bool
  | [] => startsWithChars needle []
  | c :: rest => startsWithChars needle (c :: rest) || occursIn needle rest

/-- JavaScript `String.prototype.includes`. -/
def strIncludes (haystack needle : String) : Bool :=
  occursIn needle.data haystack.data

/-- JavaScript `String.prototype.trim` over the text read from the page. -/
def jsTrim (s : String) : String :=
  String.mk (DepositMatch.trimChars s.data)

/-- Outcome state of `waitForDepositResult`. -/
inductive ResultState where
  | success
  | error
  | unknown
deriving DecidableEq, Repr

/-- Outcome of `waitForDepositResult`: the state plus the reason string. -/
structure DepositOutcome where
  state : ResultState
  reason : String
deriving DecidableEq, Repr

/-- What one iteration of the poll loop observes on the page: the innerText
of the first visible element matching `ERROR_MESSAGE_REGEX` (if any), the
innerText of the first visible element matching the operation's success
pattern (if any), and the current URL. The DOM queries themselves are the
external browser capability; the loop consumes only these observations. -/
structure PollObservation where
  errorText : Option String := none
  successText : Option String := none
  currentUrl : String
deriving DecidableEq, Repr

/-- One iteration of the `waitForDepositResult` loop body: error pattern
first, then success pattern, then the URL check; `none` means the iteration
sleeps and polls again. -/
def classifyPoll (operation : FundsTransactionOperation) (submittedUrl : String)
    (p : PollObservation) : Option DepositOutcome :=
  match p.errorText with
  | some text =>
    some
      { state := ResultState.error
        reason :=
          if (jsTrim text).isEmpty then
            "Error message detected after " ++ opName operation ++ " submit"
          else jsTrim text }
  | none =>
    match p.successText with
    | some text =>
      some
        { state := ResultState.success
          reason :=
            if (jsTrim text).isEmpty then
              "Success message detected after " ++ opName operation ++ " submit"
            else jsTrim text }
    | none =>
      if p.currentUrl ≠ submittedUrl &&
          !strIncludes p.currentUrl (targetPathByOperation operation) then
        some
          { state := ResultState.success
            reason := "URL changed after submit: " ++ p.currentUrl }
      else
        none

/-- The `unknown` outcome produced when the step timeout elapses. -/
def noSignalOutcome (operation : FundsTransactionOperation) : DepositOutcome :=
  { state := ResultState.unknown
    reason := "No clear success signal detected after " ++ opName operation ++ " submit" }

/-- Embedding of `waitForDepositResult` (src/deposit-job.ts:745): the polls the loop gets
to perform before the step timeout, consumed in order; the first recognized
signal decides, otherwise the outcome is `unknown`. -/
def waitForDepositResult (operation : FundsTransactionOperation)
    (submittedUrl : String) : List PollObservation → DepositOutcome
  | [] => noSignalOutcome operation
  | p :: rest =>
    match classifyPoll operation submittedUrl p with
    | some outcome => outcome
    | none => waitForDepositResult operation submittedUrl rest

/-- Embedding of `computeExpectedUserBalance` (src/deposit-job.ts:779). `amount = none`
embeds `typeof amount !== 'number'`, `beforeBalance = none` embeds `null`. -/
def computeExpectedUserBalance (operation : FundsTransactionOperation)
    (amount : Option ℚ) (beforeBalance : Option ℚ) : Option ℚ :=
  match beforeBalance with
  | none => none
  | some before =>
    match operation with
    | FundsTransactionOperation.carga => amount.map (fun a => before + a)
    | FundsTransactionOperation.descarga => amount.map (fun a => before - a)
    | FundsTransactionOperation.descarga_total => some 0

/-- Embedding of `verifyDepositResultStep` (src/deposit-job.ts:850): a `success` outcome
yields an `ok` step, `error`/`unknown` yield a `failed` step carrying the
outcome's reason; the screenshot taken when `captureOnSuccess` is set is the
`artifact` argument. -/
def verifyDepositResultStep (operation : FundsTransactionOperation)
    (stepName submittedUrl : String) (polls : List PollObservation)
    (artifact : Option String) (startedAt finishedAt : Nat) : JobStepResult :=
  let outcome := waitForDepositResult operation submittedUrl polls
  if outcome.state = ResultState.success then
    { name := stepName, status := JobStepStatus.ok, startedAt := startedAt,
      finishedAt := finishedAt, artifactPath := artifact, error := none }
  else
    { name := stepName, status := JobStepStatus.failed, startedAt := startedAt,
      finishedAt := finishedAt, artifactPath := artifact, error := some outcome.reason }

/-- The sentinel substring the fallback gate greps for in the failed step's
reason (src/deposit-job.ts:923). -/
def noSignalSentinel : String :=
  "No clear success signal detected"

/-- The environment of one `verifyWithRetryAndBalanceFallback` run: what the
page would yield at each interaction the function can perform. -/
structure FallbackEnv where
  stepName : String
  submittedUrl : String
  /-- Poll observations available to the first verify before its timeout. -/
  polls1 : List PollObservation
  /-- Value of `page.url()` when the `stillInOperationPage` check runs. -/
  urlAfterFirstVerify : String
  /-- Whether `findSubmitDepositAction`/`clickLocator` throw on the retry. -/
  retrySubmitThrows : Bool
  /-- Value of `page.url()` passed as the submitted URL of the retried verify. -/
  urlAfterRetrySubmit : String
  /-- Poll observations available to the retried verify. -/
  polls2 : List PollObservation
  /-- Outcome of `checkUserBalanceInUsersList` (`Except.error` = it threw). -/
  balance : Except String ℚ
  captureOnSuccess : Bool
  /-- Path of the screenshot captured when `captureOnSuccess` is set. -/
  capturedArtifactPath : String
  t0 : Nat := 0
  t1 : Nat := 0
  t2 : Nat := 0
  t3 : Nat := 0
  t4 : Nat := 0
deriving DecidableEq, Repr

/-- Result of the fallback pipeline plus ghost observability flags: whether
the single retry submit was clicked, and whether the balance comparison ran. -/
structure FallbackResult where
  step : JobStepResult
  resubmitted : Bool
  reconciled : Bool
deriving DecidableEq, Repr

/-- The balance-reconciliation tail of `verifyWithRetryAndBalanceFallback`
(src/deposit-job.ts:955-982): skipped when no expected balance is computable;
a live balance within `0.005` of the expected one turns the step into `ok`
(keeping the failed attempt's `startedAt`/artifact); any other outcome —
mismatch or a throwing balance read — returns the failed verify step. -/
def reconcileBalance (env : FallbackEnv) (expectedBalance : Option ℚ)
    (verifyStep : JobStepResult) (resubmitted : Bool) : FallbackResult :=
  match expectedBalance with
  | none => { step := verifyStep, resubmitted := resubmitted, reconciled := false }
  | some expected =>
    match env.balance with
    | Except.ok currentBalance =>
      if |currentBalance - expected| < 1 / 200 then
        { step :=
            { name := env.stepName, status := JobStepStatus.ok,
              startedAt := verifyStep.startedAt, finishedAt := env.t4,
              artifactPath := verifyStep.artifactPath, error := none }
          resubmitted := resubmitted
          reconciled := true }
      else
        { step := verifyStep, resubmitted := resubmitted, reconciled := true }
    | Except.error _ =>
      { step := verifyStep, resubmitted := resubmitted, reconciled := true }

/-- The source's local `verifyStep` binding (src/deposit-job.ts:912): the
first verify, with the screenshot captured when `captureOnSuccess` is set. -/
def firstVerifyStep (operation : FundsTransactionOperation) (env : FallbackEnv) :
    JobStepResult :=
  verifyDepositResultStep operation env.stepName env.submittedUrl env.polls1
    (if env.captureOnSuccess then some env.capturedArtifactPath else none)
    env.t0 env.t1

/-- The source's local `retriedVerify` binding (src/deposit-job.ts:933): the
re-verify after the single retry submit, never capturing a screenshot. -/
def retriedVerifyStep (operation : FundsTransactionOperation) (env : FallbackEnv) :
    JobStepResult :=
  verifyDepositResultStep operation env.stepName env.urlAfterRetrySubmit
    env.polls2 none env.t2 env.t3

/-- The source's `isNoSignal` gate (src/deposit-job.ts:923): the first verify
failed and its reason contains the no-clear-signal sentinel substring. -/
def noSignalGate (operation : FundsTransactionOperation) (env : FallbackEnv) : Bool :=
  (firstVerifyStep operation env).status = JobStepStatus.failed &&
    strIncludes ((firstVerifyStep operation env).error.getD "") noSignalSentinel

/-- The source's `stillInOperationPage` check (src/deposit-job.ts:928). -/
def stillInOpPage (operation : FundsTransactionOperation) (env : FallbackEnv) : Bool :=
  strIncludes env.urlAfterFirstVerify (targetPathByOperation operation)

/-- Embedding of `verifyWithRetryAndBalanceFallback` (src/deposit-job.ts:895). -/
def verifyWithRetryAndBalanceFallback (operation : FundsTransactionOperation)
    (amount beforeBalance : Option ℚ) (env : FallbackEnv) : FallbackResult :=
  let expectedBalance := computeExpectedUserBalance operation amount beforeBalance
  let verifyStep := firstVerifyStep operation env
  if !noSignalGate operation env then
    { step := verifyStep, resubmitted := false, reconciled := false }
  else
    if stillInOpPage operation env then
      if env.retrySubmitThrows then
        -- the catch falls through to the balance fallback with the original step
        reconcileBalance env expectedBalance verifyStep false
      else
        let retriedVerify := retriedVerifyStep operation env
        if retriedVerify.status = JobStepStatus.ok then
          { step := { retriedVerify with error := none }, resubmitted := true,
            reconciled := false }
        else
          reconcileBalance env expectedBalance retriedVerify true
    else
      reconcileBalance env expectedBalance verifyStep false

end Verify

/-! ## Theorems -/

namespace DepositMatch

theorem hasExactUsernameMatch_eq_false_of_empty (value username : String)
    (h : normalizeDepositText value = "" ∨ normalizeDepositText username = "") :
    hasExactUsernameMatch value username = false := by
  unfold hasExactUsernameMatch
  rcases h with h | h <;> simp [h, String.isEmpty]

theorem rowMatches_eq_false_of_empty (username : String) (c : DepositRowCandidate)
    (h : normalizeDepositText username = "") : rowMatches username c = false := by
  unfold rowMatches
  have hm : ∀ v, hasExactUsernameMatch v username = false := fun v =>
    hasExactUsernameMatch_eq_false_of_empty v username (Or.inr h)
  simp [hm]

theorem selectDepositRowIndex_isError_of_empty
    (candidates : List DepositRowCandidate) (username : String)
    (h : normalizeDepositText username = "") :
    ∃ msg, selectDepositRowIndex candidates username = Except.error msg := by
  unfold selectDepositRowIndex
  by_cases hlen : (candidates.filter (fun c => c.hasAction)).length = 0
  · exact ⟨_, by simp [hlen]; rfl⟩
  · have hexact :
        (candidates.filter (fun c => c.hasAction)).filter (rowMatches username) = [] :=
      List.filter_eq_nil_iff.mpr
        (fun c _ => by simp [rowMatches_eq_false_of_empty username c h])
    exact ⟨_, by simp [hlen, hexact]; rfl⟩

/-- C10: `hasExactUsernameMatch` returns `false` whenever either side
normalizes to the empty string, and consequently `selectDepositRowIndex`
always throws for a target whose normalization is empty. -/
theorem claim_C10_empty_normalization :
    (∀ value username : String,
        normalizeDepositText value = "" ∨ normalizeDepositText username = "" →
        hasExactUsernameMatch value username = false)
    ∧ (∀ (candidates : List DepositRowCandidate) (username : String),
        normalizeDepositText username = "" →
        ∃ msg, selectDepositRowIndex candidates username = Except.error msg) :=
  ⟨hasExactUsernameMatch_eq_false_of_empty, selectDepositRowIndex_isError_of_empty⟩

/-- Witness for C10 at a whitespace-only target. -/
theorem claim_C10_empty_normalization_witness :
    hasExactUsernameMatch "pruebita" "  " = false
    ∧ ∃ msg, selectDepositRowIndex
        [⟨0, true, ["pruebita"], "pruebita"⟩] "  " = Except.error msg :=
  ⟨claim_C10_empty_normalization.1 "pruebita" "  " (Or.inr (by decide)),
   claim_C10_empty_normalization.2 [⟨0, true, ["pruebita"], "pruebita"⟩] "  " (by decide)⟩

end DepositMatch

namespace DepositMatch

theorem selectDepositRowIndex_ok_of_singleton
    (candidates : List DepositRowCandidate) (username : String)
    (c : DepositRowCandidate) (h : matchingRows candidates username = [c]) :
    selectDepositRowIndex candidates username = Except.ok c.index := by
  unfold matchingRows at h
  have hmem : c ∈ candidates.filter (fun c => c.hasAction) :=
    List.mem_of_mem_filter (h ▸ List.mem_singleton_self c)
  have hlen : (candidates.filter (fun c => c.hasAction)).length ≠ 0 := by
    intro h0
    rw [List.length_eq_zero.mp h0] at hmem
    cases hmem
  unfold selectDepositRowIndex
  simp only [hlen, if_false, h]

theorem selectDepositRowIndex_error_of_nil
    (candidates : List DepositRowCandidate) (username : String)
    (h : matchingRows candidates username = []) :
    ∃ msg, selectDepositRowIndex candidates username = Except.error msg := by
  unfold matchingRows at h
  unfold selectDepositRowIndex
  by_cases hlen : (candidates.filter (fun c => c.hasAction)).length = 0
  · exact ⟨_, by simp [hlen]; rfl⟩
  · exact ⟨_, by simp [hlen, h]; rfl⟩

theorem selectDepositRowIndex_error_of_many
    (candidates : List DepositRowCandidate) (username : String)
    (h : 2 ≤ (matchingRows candidates username).length) :
    ∃ msg, selectDepositRowIndex candidates username = Except.error msg := by
  unfold matchingRows at h
  rcases hm : (candidates.filter (fun c => c.hasAction)).filter (rowMatches username) with
    _ | ⟨c₁, _ | ⟨c₂, rest⟩⟩
  · rw [hm] at h; simp at h
  · rw [hm] at h; simp at h
  · have hmem : c₁ ∈ candidates.filter (fun c => c.hasAction) :=
      List.mem_of_mem_filter (hm ▸ List.mem_cons_self c₁ _)
    have hlen : (candidates.filter (fun c => c.hasAction)).length ≠ 0 := by
      intro h0
      rw [List.length_eq_zero.mp h0] at hmem
      cases hmem
    unfold selectDepositRowIndex
    exact ⟨_, by simp [hlen, hm]; rfl⟩

theorem selectDepositRowIndex_perm_invariant
    (candidates candidates' : List DepositRowCandidate) (username : String)
    (hperm : candidates.Perm candidates') :
    selectDepositRowIndex candidates username = selectDepositRowIndex candidates' username := by
  have hact : (candidates.filter (fun c => c.hasAction)).Perm
      (candidates'.filter (fun c => c.hasAction)) := hperm.filter _
  have hlen := hact.length_eq
  have hex : ((candidates.filter (fun c => c.hasAction)).filter (rowMatches username)).Perm
      ((candidates'.filter (fun c => c.hasAction)).filter (rowMatches username)) :=
    hact.filter _
  have hexlen := hex.length_eq
  unfold selectDepositRowIndex
  by_cases h0 : (candidates.filter (fun c => c.hasAction)).length = 0
  · simp only [h0, hlen ▸ h0, if_true]
  · have h0' : ¬ (candidates'.filter (fun c => c.hasAction)).length = 0 := hlen ▸ h0
    simp only [h0, h0', if_false]
    rcases hm : (candidates.filter (fun c => c.hasAction)).filter (rowMatches username) with
      _ | ⟨c₁, _ | ⟨c₂, rest⟩⟩
    · have hm' : (candidates'.filter (fun c => c.hasAction)).filter (rowMatches username) = [] := by
        rw [hm] at hex
        exact hex.symm.eq_nil
      rw [hm, hm', hlen]
    · have hm' : (candidates'.filter (fun c => c.hasAction)).filter (rowMatches username) = [c₁] := by
        rw [hm] at hex
        exact List.perm_singleton.mp hex.symm
      rw [hm, hm']
    · rw [hm] at hex
      rcases hm' : (candidates'.filter (fun c => c.hasAction)).filter (rowMatches username) with
        _ | ⟨d₁, _ | ⟨d₂, rest'⟩⟩
      · rw [hm'] at hex; have := hex.length_eq; simp at this
      · rw [hm'] at hex; have := hex.length_eq; simp at this
      · have hle : (c₁ :: c₂ :: rest).length = (d₁ :: d₂ :: rest').length := by
          rw [hm'] at hex; exact hex.length_eq
        rw [hm, hm', hle]

/-- C4: `selectDepositRowIndex` returns the index of the unique actionable
row with an exact boundary-delimited (case- and accent-insensitive) match of
the target, errors when zero rows match, errors when several rows match,
never accepts a substring match (`"pruebita_2"` does not match
`"pruebita"`), and its outcome is invariant under permutation of the
candidate list. -/
theorem claim_C4_row_selection :
    (∀ (candidates candidates' : List DepositRowCandidate) (username : String),
        candidates.Perm candidates' →
        selectDepositRowIndex candidates username = selectDepositRowIndex candidates' username)
    ∧ (∀ (candidates : List DepositRowCandidate) (username : String)
        (c : DepositRowCandidate), matchingRows candidates username = [c] →
        selectDepositRowIndex candidates username = Except.ok c.index)
    ∧ (∀ (candidates : List DepositRowCandidate) (username : String),
        matchingRows candidates username = [] →
        ∃ msg, selectDepositRowIndex candidates username = Except.error msg)
    ∧ (∀ (candidates : List DepositRowCandidate) (username : String),
        2 ≤ (matchingRows candidates username).length →
        ∃ msg, selectDepositRowIndex candidates username = Except.error msg)
    ∧ hasExactUsernameMatch "pruebita_2" "pruebita" = false
    ∧ hasExactUsernameMatch "pruebita" "pruebita" = true :=
  ⟨fun c c' u h => selectDepositRowIndex_perm_invariant c c' u h,
   selectDepositRowIndex_ok_of_singleton,
   selectDepositRowIndex_error_of_nil,
   selectDepositRowIndex_error_of_many,
   by decide, by decide⟩

/-- Witness for C4 at the spec's example rows: the unique match for
`"pruebita"` sits at row index 1 and is selected; with the rows given in the
opposite order the same index is returned. -/
theorem claim_C4_row_selection_witness :
    selectDepositRowIndex
        [⟨0, true, ["other_user"], "other_user"⟩, ⟨1, true, ["pruebita"], "pruebita"⟩]
        "pruebita" = Except.ok 1
    ∧ selectDepositRowIndex
        [⟨1, true, ["pruebita"], "pruebita"⟩, ⟨0, true, ["other_user"], "other_user"⟩]
        "pruebita" = Except.ok 1 :=
  ⟨claim_C4_row_selection.2.1
      [⟨0, true, ["other_user"], "other_user"⟩, ⟨1, true, ["pruebita"], "pruebita"⟩]
      "pruebita" ⟨1, true, ["pruebita"], "pruebita"⟩ (by decide),
   (claim_C4_row_selection.1
      [⟨1, true, ["pruebita"], "pruebita"⟩, ⟨0, true, ["other_user"], "other_user"⟩]
      [⟨0, true, ["other_user"], "other_user"⟩, ⟨1, true, ["pruebita"], "pruebita"⟩]
      "pruebita" (List.Perm.swap _ _ _)).trans
    (claim_C4_row_selection.2.1
      [⟨0, true, ["other_user"], "other_user"⟩, ⟨1, true, ["pruebita"], "pruebita"⟩]
      "pruebita" ⟨1, true, ["pruebita"], "pruebita"⟩ (by decide))⟩

end DepositMatch

namespace Money

theorem digit_keepChar {c : Char} (h : c.isDigit = true) : keepChar c = true := by
  simp [keepChar, h]

theorem digit_ne_dot {c : Char} (h : c.isDigit = true) : c ≠ '.' := by
  intro heq; rw [heq] at h; exact absurd h (by decide)

theorem digit_ne_comma {c : Char} (h : c.isDigit = true) : c ≠ ',' := by
  intro heq; rw [heq] at h; exact absurd h (by decide)

theorem digit_ne_minus {c : Char} (h : c.isDigit = true) : c ≠ '-' := by
  intro heq; rw [heq] at h; exact absurd h (by decide)

theorem map_eq_self_of_fixed (l : List Char) (f : Char → Char)
    (h : ∀ a ∈ l, f a = a) : l.map f = l := by
  induction l with
  | nil => rfl
  | cons x xs ih =>
    simp only [List.map_cons, h x (List.mem_cons_self x xs)]
    rw [ih (fun a ha => h a (List.mem_cons_of_mem x ha))]

theorem contains_eq_false_of_not_mem (l : List Char) (c : Char) (h : ¬ c ∈ l) :
    l.contains c = false := by
  simp [List.contains]
  intro hc
  exact absurd hc h

theorem takeWhile_middle (p : Char → Bool) (xs : List Char) (y : Char) (ys : List Char)
    (hxs : ∀ x ∈ xs, p x = true) (hy : p y = false) :
    (xs ++ y :: ys).takeWhile p = xs ∧ (xs ++ y :: ys).dropWhile p = y :: ys := by
  induction xs with
  | nil => simp [List.takeWhile_cons, List.dropWhile_cons, hy]
  | cons x xs ih =>
    have hx : p x = true := hxs x (List.mem_cons_self x xs)
    have ih' := ih (fun a ha => hxs a (List.mem_cons_of_mem x ha))
    constructor
    · simp only [List.cons_append, List.takeWhile_cons, hx, if_true, ih'.1]
    · simp only [List.cons_append, List.dropWhile_cons, hx, if_true, ih'.2]

theorem splitOnChar_no_sep (sep : Char) (l : List Char) (h : ∀ x ∈ l, x ≠ sep) :
    splitOnChar sep l = [l] := by
  induction l with
  | nil => rfl
  | cons x xs ih =>
    have hx : x ≠ sep := h x (List.mem_cons_self x xs)
    have ih' := ih (fun a ha => h a (List.mem_cons_of_mem x ha))
    simp only [splitOnChar, ih', hx, if_false]

theorem splitOnChar_append (sep : Char) (a b : List Char) (h : ∀ x ∈ a, x ≠ sep) :
    splitOnChar sep (a ++ sep :: b) = a :: splitOnChar sep b := by
  induction a with
  | nil => simp [splitOnChar]
  | cons x xs ih =>
    have hx : x ≠ sep := h x (List.mem_cons_self x xs)
    have ih' := ih (fun c hc => h c (List.mem_cons_of_mem x hc))
    simp only [List.cons_append, splitOnChar, List.append_eq, ih', hx, if_false]

theorem jsLastIndexOf_eq_neg_one (l : List Char) (c : Char) (h : ∀ x ∈ l, x ≠ c) :
    jsLastIndexOf l c = -1 := by
  induction l with
  | nil => rfl
  | cons x xs ih =>
    have hx : x ≠ c := h x (List.mem_cons_self x xs)
    have ih' := ih (fun a ha => h a (List.mem_cons_of_mem x ha))
    simp [jsLastIndexOf, ih', hx]

theorem jsLastIndexOf_append_last (xs : List Char) (c : Char) (ys : List Char)
    (h : ∀ x ∈ ys, x ≠ c) :
    jsLastIndexOf (xs ++ c :: ys) c = (xs.length : Int) := by
  induction xs with
  | nil => simp [jsLastIndexOf, jsLastIndexOf_eq_neg_one ys c h]
  | cons x xs ih =>
    simp only [List.cons_append, jsLastIndexOf, List.append_eq, ih, List.length_cons]
    rw [if_pos (Int.natCast_nonneg xs.length)]
    push_cast
    ring

end Money

namespace Money

theorem filter_ne_of_no_occurrence (sep : Char) (l : List Char)
    (h : ∀ x ∈ l, x ≠ sep) : l.filter (fun ch => ch ≠ sep) = l :=
  List.filter_eq_self.mpr (fun x hx => by simp [h x hx])

theorem filter_ne_drop_head (sep : Char) (l : List Char) :
    (sep :: l).filter (fun ch => ch ≠ sep) = l.filter (fun ch => ch ≠ sep) := by
  simp

theorem filter_ne_keep_head (sep d : Char) (l : List Char) (h : d ≠ sep) :
    (d :: l).filter (fun ch => ch ≠ sep) = d :: l.filter (fun ch => ch ≠ sep) := by
  simp [h]

theorem digits_append (a b : List Char) (hda : ∀ x ∈ a, x.isDigit = true)
    (hdb : ∀ x ∈ b, x.isDigit = true) : ∀ x ∈ a ++ b, x.isDigit = true := by
  intro x hx
  rcases List.mem_append.mp hx with h | h
  · exact hda x h
  · exact hdb x h

theorem jsNumberBody_decimal (a c : List Char) (ha : a ≠ [])
    (hda : ∀ x ∈ a, x.isDigit = true) (hdc : ∀ x ∈ c, x.isDigit = true) :
    jsNumberBody (a ++ '.' :: c) =
      some ((digitsVal a : ℚ) + (digitsVal c : ℚ) / (10 : ℚ) ^ c.length) := by
  have htake := takeWhile_middle (fun ch => ch ≠ '.') a '.' c
    (fun x hx => by simp [digit_ne_dot (hda x hx)]) (by simp)
  have hcont : c.contains '.' = false :=
    contains_eq_false_of_not_mem c '.' (fun hm => digit_ne_dot (hdc '.' hm) rfl)
  have hnil : a.isEmpty = false := by
    cases a with | nil => exact absurd rfl ha | cons x xs => rfl
  simp only [jsNumberBody, htake.1, htake.2, hcont, Bool.false_eq_true, if_false,
    List.all_eq_true.mpr hda, List.all_eq_true.mpr hdc, hnil, Bool.not_false,
    Bool.and_true, Bool.true_and, Bool.or_true, Bool.true_or, if_true]

theorem jsNumber_not_minus (d : Char) (rest : List Char) (hd : d ≠ '-') :
    jsNumber (d :: rest) = jsNumberBody (d :: rest) := by
  simp [jsNumber, hd]

theorem parseLocalizedMoney_comma_only (a b : List Char) (ha : a ≠ [])
    (hda : ∀ x ∈ a, x.isDigit = true) (hdb : ∀ x ∈ b, x.isDigit = true) :
    parseLocalizedMoney (String.mk (a ++ ',' :: b)) =
      Except.ok ((digitsVal a : ℚ) + (digitsVal b : ℚ) / (10 : ℚ) ^ b.length) := by
  obtain ⟨a₀, a', rfl⟩ : ∃ d t, a = d :: t := by
    cases a with
    | nil => exact absurd rfl ha
    | cons d t => exact ⟨d, t, rfl⟩
  have hd₀ : a₀.isDigit = true := hda a₀ (List.mem_cons_self a₀ a')
  set l : List Char := (a₀ :: a') ++ ',' :: b with hl
  have hkeep : l.filter keepChar = l := by
    apply List.filter_eq_self.mpr
    intro x hx
    rcases List.mem_append.mp hx with h | h
    · exact digit_keepChar (hda x h)
    · rcases List.mem_cons.mp h with rfl | h
      · decide
      · exact digit_keepChar (hdb x h)
  have hany : l.any Char.isDigit = true :=
    List.any_eq_true.mpr ⟨a₀, List.mem_append_left _ (List.mem_cons_self a₀ a'), hd₀⟩
  have hminus : l.filter (fun c => c ≠ '-') = l := by
    apply List.filter_eq_self.mpr
    intro x hx
    rcases List.mem_append.mp hx with h | h
    · simp [digit_ne_minus (hda x h)]
    · rcases List.mem_cons.mp h with rfl | h
      · decide
      · simp [digit_ne_minus (hdb x h)]
  have hcomma : l.contains ',' = true := by
    apply List.elem_eq_true_of_mem
    exact List.mem_append_right _ (List.mem_cons_self ',' b)
  have hdot : l.contains '.' = false := by
    apply contains_eq_false_of_not_mem
    intro hm
    rcases List.mem_append.mp hm with h | h
    · exact digit_ne_dot (hda '.' h) rfl
    · rcases List.mem_cons.mp h with heq | h
      · exact absurd heq (by decide)
      · exact digit_ne_dot (hdb '.' h) rfl
  have hsplit : splitOnChar ',' l = [a₀ :: a', b] := by
    rw [hl, splitOnChar_append ',' (a₀ :: a') b
      (fun x hx => digit_ne_comma (hda x hx)),
      splitOnChar_no_sep ',' b (fun x hx => digit_ne_comma (hdb x hx))]
  have hhead : l.head? = some a₀ := rfl
  have hdata : (String.mk l).data = l := rfl
  have hsign : l.head? = some '-' ↔ False := by
    rw [hhead]
    simp
    exact digit_ne_minus hd₀
  have hjs : jsNumber (a₀ :: (a' ++ '.' :: b)) =
      some ((digitsVal (a₀ :: a') : ℚ) + (digitsVal b : ℚ) / (10 : ℚ) ^ b.length) := by
    rw [jsNumber_not_minus _ _ (digit_ne_minus hd₀), ← List.cons_append,
      jsNumberBody_decimal (a₀ :: a') b ha hda hdb]
  simp only [parseLocalizedMoney, hdata, hkeep, hany, Bool.not_true, Bool.false_eq_true,
    if_false, hsign, iff_false, hminus, hcomma, hdot, Bool.and_false, Bool.true_and,
    Bool.and_true, if_true, hsplit]
  simp [hjs]

end Money

namespace Money

theorem parseLocalizedMoney_comma_last (a b c : List Char) (ha : a ≠ [])
    (hda : ∀ x ∈ a, x.isDigit = true) (hdb : ∀ x ∈ b, x.isDigit = true)
    (hdc : ∀ x ∈ c, x.isDigit = true) :
    parseLocalizedMoney (String.mk (a ++ '.' :: (b ++ ',' :: c))) =
      Except.ok ((digitsVal (a ++ b) : ℚ) + (digitsVal c : ℚ) / (10 : ℚ) ^ c.length) := by
  obtain ⟨a₀, a', rfl⟩ : ∃ d t, a = d :: t := by
    cases a with
    | nil => exact absurd rfl ha
    | cons d t => exact ⟨d, t, rfl⟩
  have hd₀ : a₀.isDigit = true := hda a₀ (List.mem_cons_self a₀ a')
  set l : List Char := (a₀ :: a') ++ '.' :: (b ++ ',' :: c) with hl
  have hkeep : l.filter keepChar = l := by
    apply List.filter_eq_self.mpr
    intro x hx
    rcases List.mem_append.mp hx with h | h
    · exact digit_keepChar (hda x h)
    · rcases List.mem_cons.mp h with rfl | h
      · decide
      · rcases List.mem_append.mp h with h | h
        · exact digit_keepChar (hdb x h)
        · rcases List.mem_cons.mp h with rfl | h
          · decide
          · exact digit_keepChar (hdc x h)
  have hany : l.any Char.isDigit = true :=
    List.any_eq_true.mpr ⟨a₀, List.mem_append_left _ (List.mem_cons_self a₀ a'), hd₀⟩
  have hminus : l.filter (fun ch => ch ≠ '-') = l := by
    apply List.filter_eq_self.mpr
    intro x hx
    rcases List.mem_append.mp hx with h | h
    · simp [digit_ne_minus (hda x h)]
    · rcases List.mem_cons.mp h with rfl | h
      · decide
      · rcases List.mem_append.mp h with h | h
        · simp [digit_ne_minus (hdb x h)]
        · rcases List.mem_cons.mp h with rfl | h
          · decide
          · simp [digit_ne_minus (hdc x h)]
  have hcomma : l.contains ',' = true := by
    apply List.elem_eq_true_of_mem
    exact List.mem_append_right _
      (List.mem_cons_of_mem _ (List.mem_append_right _ (List.mem_cons_self ',' c)))
  have hdot : l.contains '.' = true := by
    apply List.elem_eq_true_of_mem
    exact List.mem_append_right _ (List.mem_cons_self _ _)
  have hidxdot : jsLastIndexOf l '.' = ((a₀ :: a').length : Int) := by
    apply jsLastIndexOf_append_last
    intro x hx
    rcases List.mem_append.mp hx with h | h
    · exact digit_ne_dot (hdb x h)
    · rcases List.mem_cons.mp h with rfl | h
      · decide
      · exact digit_ne_dot (hdc x h)
  have hidxcomma : jsLastIndexOf l ',' = (((a₀ :: a') ++ '.' :: b).length : Int) := by
    have hshape : l = ((a₀ :: a') ++ '.' :: b) ++ ',' :: c := by
      rw [hl]; simp
    rw [hshape]
    exact jsLastIndexOf_append_last _ ',' c (fun x hx => digit_ne_comma (hdc x hx))
  have hcmp : jsLastIndexOf l '.' < jsLastIndexOf l ',' := by
    rw [hidxdot, hidxcomma]
    simp only [List.length_append, List.length_cons]
    push_cast
    omega
  have hfilterdot : l.filter (fun ch => ch ≠ '.') = (a₀ :: a') ++ (b ++ ',' :: c) := by
    rw [hl, List.filter_append,
      filter_ne_of_no_occurrence '.' (a₀ :: a') (fun x hx => digit_ne_dot (hda x hx)),
      filter_ne_drop_head '.', List.filter_append,
      filter_ne_of_no_occurrence '.' b (fun x hx => digit_ne_dot (hdb x hx)),
      filter_ne_keep_head '.' ',' c (by decide),
      filter_ne_of_no_occurrence '.' c (fun x hx => digit_ne_dot (hdc x hx))]
  have hmap : ((a₀ :: a') ++ (b ++ ',' :: c)).map (fun ch => if ch = ',' then '.' else ch) =
      (a₀ :: a') ++ (b ++ '.' :: c) := by
    rw [List.map_append,
      map_eq_self_of_fixed (a₀ :: a') _ (fun x hx => by simp [digit_ne_comma (hda x hx)]),
      List.map_append,
      map_eq_self_of_fixed b _ (fun x hx => by simp [digit_ne_comma (hdb x hx)]),
      List.map_cons,
      map_eq_self_of_fixed c _ (fun x hx => by simp [digit_ne_comma (hdc x hx)])]
    simp
  have hdigab : ∀ x ∈ (a₀ :: a') ++ b, x.isDigit = true := digits_append _ _ hda hdb
  have habne : (a₀ :: a') ++ b ≠ [] := by simp
  have hjs : jsNumber (a₀ :: (a' ++ (b ++ '.' :: c))) =
      some ((digitsVal ((a₀ :: a') ++ b) : ℚ) + (digitsVal c : ℚ) / (10 : ℚ) ^ c.length) := by
    rw [jsNumber_not_minus _ _ (digit_ne_minus hd₀)]
    have hshape : a₀ :: (a' ++ (b ++ '.' :: c)) = ((a₀ :: a') ++ b) ++ '.' :: c := by simp
    rw [hshape, jsNumberBody_decimal ((a₀ :: a') ++ b) c habne hdigab hdc]
  have hdata : (String.mk l).data = l := rfl
  have hsign : l.head? = some '-' ↔ False := by
    have hhead : l.head? = some a₀ := rfl
    rw [hhead]
    simp
    exact digit_ne_minus hd₀
  simp only [parseLocalizedMoney, hdata, hkeep, hany, Bool.not_true, Bool.false_eq_true,
    if_false, hsign, iff_false, hminus, hcomma, hdot, Bool.and_true, Bool.true_and,
    if_true, hcmp, hfilterdot, hmap]
  simp [hjs]

theorem parseLocalizedMoney_dot_last (a b c : List Char) (ha : a ≠ [])
    (hda : ∀ x ∈ a, x.isDigit = true) (hdb : ∀ x ∈ b, x.isDigit = true)
    (hdc : ∀ x ∈ c, x.isDigit = true) :
    parseLocalizedMoney (String.mk (a ++ ',' :: (b ++ '.' :: c))) =
      Except.ok ((digitsVal (a ++ b) : ℚ) + (digitsVal c : ℚ) / (10 : ℚ) ^ c.length) := by
  obtain ⟨a₀, a', rfl⟩ : ∃ d t, a = d :: t := by
    cases a with
    | nil => exact absurd rfl ha
    | cons d t => exact ⟨d, t, rfl⟩
  have hd₀ : a₀.isDigit = true := hda a₀ (List.mem_cons_self a₀ a')
  set l : List Char := (a₀ :: a') ++ ',' :: (b ++ '.' :: c) with hl
  have hkeep : l.filter keepChar = l := by
    apply List.filter_eq_self.mpr
    intro x hx
    rcases List.mem_append.mp hx with h | h
    · exact digit_keepChar (hda x h)
    · rcases List.mem_cons.mp h with rfl | h
      · decide
      · rcases List.mem_append.mp h with h | h
        · exact digit_keepChar (hdb x h)
        · rcases List.mem_cons.mp h with rfl | h
          · decide
          · exact digit_keepChar (hdc x h)
  have hany : l.any Char.isDigit = true :=
    List.any_eq_true.mpr ⟨a₀, List.mem_append_left _ (List.mem_cons_self a₀ a'), hd₀⟩
  have hminus : l.filter (fun ch => ch ≠ '-') = l := by
    apply List.filter_eq_self.mpr
    intro x hx
    rcases List.mem_append.mp hx with h | h
    · simp [digit_ne_minus (hda x h)]
    · rcases List.mem_cons.mp h with rfl | h
      · decide
      · rcases List.mem_append.mp h with h | h
        · simp [digit_ne_minus (hdb x h)]
        · rcases List.mem_cons.mp h with rfl | h
          · decide
          · simp [digit_ne_minus (hdc x h)]
  have hcomma : l.contains ',' = true := by
    apply List.elem_eq_true_of_mem
    exact List.mem_append_right _ (List.mem_cons_self _ _)
  have hdot : l.contains '.' = true := by
    apply List.elem_eq_true_of_mem
    exact List.mem_append_right _
      (List.mem_cons_of_mem _ (List.mem_append_right _ (List.mem_cons_self '.' c)))
  have hidxcomma : jsLastIndexOf l ',' = ((a₀ :: a').length : Int) := by
    apply jsLastIndexOf_append_last
    intro x hx
    rcases List.mem_append.mp hx with h | h
    · exact digit_ne_comma (hdb x h)
    · rcases List.mem_cons.mp h with rfl | h
      · decide
      · exact digit_ne_comma (hdc x h)
  have hidxdot : jsLastIndexOf l '.' = (((a₀ :: a') ++ ',' :: b).length : Int) := by
    have hshape : l = ((a₀ :: a') ++ ',' :: b) ++ '.' :: c := by
      rw [hl]; simp
    rw [hshape]
    exact jsLastIndexOf_append_last _ '.' c (fun x hx => digit_ne_dot (hdc x hx))
  have hcmp : ¬ jsLastIndexOf l '.' < jsLastIndexOf l ',' := by
    rw [hidxdot, hidxcomma]
    simp only [List.length_append, List.length_cons]
    push_cast
    omega
  have hfiltercomma : l.filter (fun ch => ch ≠ ',') = (a₀ :: a') ++ (b ++ '.' :: c) := by
    rw [hl, List.filter_append,
      filter_ne_of_no_occurrence ',' (a₀ :: a') (fun x hx => digit_ne_comma (hda x hx)),
      filter_ne_drop_head ',', List.filter_append,
      filter_ne_of_no_occurrence ',' b (fun x hx => digit_ne_comma (hdb x hx)),
      filter_ne_keep_head ',' '.' c (by decide),
      filter_ne_of_no_occurrence ',' c (fun x hx => digit_ne_comma (hdc x hx))]
  have hdigab : ∀ x ∈ (a₀ :: a') ++ b, x.isDigit = true := digits_append _ _ hda hdb
  have habne : (a₀ :: a') ++ b ≠ [] := by simp
  have hjs : jsNumber (a₀ :: (a' ++ (b ++ '.' :: c))) =
      some ((digitsVal ((a₀ :: a') ++ b) : ℚ) + (digitsVal c : ℚ) / (10 : ℚ) ^ c.length) := by
    rw [jsNumber_not_minus _ _ (digit_ne_minus hd₀)]
    have hshape : a₀ :: (a' ++ (b ++ '.' :: c)) = ((a₀ :: a') ++ b) ++ '.' :: c := by simp
    rw [hshape, jsNumberBody_decimal ((a₀ :: a') ++ b) c habne hdigab hdc]
  have hdata : (String.mk l).data = l := rfl
  have hsign : l.head? = some '-' ↔ False := by
    have hhead : l.head? = some a₀ := rfl
    rw [hhead]
    simp
    exact digit_ne_minus hd₀
  simp only [parseLocalizedMoney, hdata, hkeep, hany, Bool.not_true, Bool.false_eq_true,
    if_false, hsign, iff_false, hminus, hcomma, hdot, Bool.and_true, Bool.true_and,
    if_true, hcmp, hfiltercomma]
  simp [hjs]

theorem parseLocalizedMoney_error_of_no_digit (s : String)
    (h : s.data.any Char.isDigit = false) :
    parseLocalizedMoney s =
      Except.error ("Could not parse money value \"" ++ s ++ "\"") := by
  have hno : (s.data.filter keepChar).any Char.isDigit = false := by
    rw [List.any_eq_false] at h ⊢
    intro x hx
    exact h x (List.mem_of_mem_filter hx)
  simp [parseLocalizedMoney, hno]

end Money

namespace Money

/-- C5 counterexample: the claim's reference value
`parseLocalizedMoney "12.345" = 12345` is false on the code — the
deposit-job parser treats a lone `.` as the decimal separator, so
`"12.345"` parses to `12.345` (the value `12345` is produced by the separate
row-balance parser `parseBalanceNumber` in balance-job.ts, not by this
function). -/
theorem claim_C5_counterexample :
    parseLocalizedMoney "12.345" ≠ Except.ok (12345 : ℚ) := by
  have h : parseLocalizedMoney "12.345"
      = Except.ok (((12 : ℕ) : ℚ) + ((345 : ℕ) : ℚ) / (10 : ℚ) ^ (3 : ℕ)) := rfl
  rw [h]
  simp only [ne_eq, Except.ok.injEq]
  norm_num

/-- C5 (amended): `parseLocalizedMoney` satisfies `"1.234,56" ↦ 1234.56`,
`"12.345" ↦ 12.345` (a lone `.` is taken as the decimal separator, not a
thousands separator), `"0,00" ↦ 0`; any input with no digit throws; when both
separators are present the one appearing last is the decimal separator (shown
in general for digit groups around the separators); and when only `,` is
present it is the decimal separator. -/
theorem claim_C5_parse_localized_money :
    parseLocalizedMoney "1.234,56" = Except.ok ((123456 : ℚ) / 100)
    ∧ parseLocalizedMoney "12.345" = Except.ok ((12345 : ℚ) / 1000)
    ∧ parseLocalizedMoney "0,00" = Except.ok 0
    ∧ (∀ s : String, s.data.any Char.isDigit = false →
        ∃ msg, parseLocalizedMoney s = Except.error msg)
    ∧ (∀ a b c : List Char, a ≠ [] → (∀ x ∈ a, x.isDigit = true) →
        (∀ x ∈ b, x.isDigit = true) → (∀ x ∈ c, x.isDigit = true) →
        parseLocalizedMoney (String.mk (a ++ '.' :: (b ++ ',' :: c))) =
          Except.ok ((digitsVal (a ++ b) : ℚ) + (digitsVal c : ℚ) / (10 : ℚ) ^ c.length))
    ∧ (∀ a b c : List Char, a ≠ [] → (∀ x ∈ a, x.isDigit = true) →
        (∀ x ∈ b, x.isDigit = true) → (∀ x ∈ c, x.isDigit = true) →
        parseLocalizedMoney (String.mk (a ++ ',' :: (b ++ '.' :: c))) =
          Except.ok ((digitsVal (a ++ b) : ℚ) + (digitsVal c : ℚ) / (10 : ℚ) ^ c.length))
    ∧ (∀ a b : List Char, a ≠ [] → (∀ x ∈ a, x.isDigit = true) →
        (∀ x ∈ b, x.isDigit = true) →
        parseLocalizedMoney (String.mk (a ++ ',' :: b)) =
          Except.ok ((digitsVal a : ℚ) + (digitsVal b : ℚ) / (10 : ℚ) ^ b.length)) := by
  refine ⟨?_, ?_, ?_, ?_, parseLocalizedMoney_comma_last, parseLocalizedMoney_dot_last,
    parseLocalizedMoney_comma_only⟩
  · have h : parseLocalizedMoney "1.234,56"
        = Except.ok (((1234 : ℕ) : ℚ) + ((56 : ℕ) : ℚ) / (10 : ℚ) ^ (2 : ℕ)) := rfl
    rw [h]
    norm_num
  · have h : parseLocalizedMoney "12.345"
        = Except.ok (((12 : ℕ) : ℚ) + ((345 : ℕ) : ℚ) / (10 : ℚ) ^ (3 : ℕ)) := rfl
    rw [h]
    norm_num
  · have h : parseLocalizedMoney "0,00"
        = Except.ok (((0 : ℕ) : ℚ) + ((0 : ℕ) : ℚ) / (10 : ℚ) ^ (2 : ℕ)) := rfl
    rw [h]
    norm_num
  · intro s hs
    exact ⟨_, parseLocalizedMoney_error_of_no_digit s hs⟩

/-- Witness for C5 at concrete inputs: a digit-free input errors, and
`"7,5"` (comma as decimal separator) parses to `7.5`. -/
theorem claim_C5_parse_localized_money_witness :
    (∃ msg, parseLocalizedMoney "saldo" = Except.error msg)
    ∧ parseLocalizedMoney (String.mk (['7'] ++ ',' :: ['5'])) =
        Except.ok ((digitsVal ['7'] : ℚ) +
          (digitsVal ['5'] : ℚ) / (10 : ℚ) ^ (['5'] : List Char).length) :=
  ⟨claim_C5_parse_localized_money.2.2.2.1 "saldo" (by decide),
   claim_C5_parse_localized_money.2.2.2.2.2.2 ['7'] ['5'] (by decide) (by decide) (by decide)⟩

end Money

namespace Verify

theorem waitForDepositResult_all_none (operation : FundsTransactionOperation)
    (submittedUrl : String) (polls : List PollObservation)
    (h : ∀ p ∈ polls, classifyPoll operation submittedUrl p = none) :
    waitForDepositResult operation submittedUrl polls = noSignalOutcome operation := by
  induction polls with
  | nil => rfl
  | cons p rest ih =>
    have hp := h p (List.mem_cons_self p rest)
    have ih' := ih (fun q hq => h q (List.mem_cons_of_mem p hq))
    simp [waitForDepositResult, hp, ih']

theorem waitForDepositResult_skip_leading (operation : FundsTransactionOperation)
    (submittedUrl : String) (pre rest : List PollObservation)
    (h : ∀ p ∈ pre, classifyPoll operation submittedUrl p = none) :
    waitForDepositResult operation submittedUrl (pre ++ rest) =
      waitForDepositResult operation submittedUrl rest := by
  induction pre with
  | nil => rfl
  | cons p pres ih =>
    have hp := h p (List.mem_cons_self p pres)
    have ih' := ih (fun q hq => h q (List.mem_cons_of_mem p hq))
    simp [waitForDepositResult, hp, ih']

/-- C3: the verify-outcome poll loop classifies a visible error text as an
`error` outcome carrying that (trimmed) text as the reason; a visible success
text as `success`; a URL that changed away from the operation path as
`success`; and when no poll produces a signal before the timeout the outcome
is the distinct `unknown` state (not `error`), which is what drives the
fallback. Earlier signal-free polls are skipped, so the first signal
decides. -/
theorem claim_C3_verify_outcome_classification :
    (∀ (operation : FundsTransactionOperation) (submittedUrl : String)
        (polls : List PollObservation),
        (∀ p ∈ polls, classifyPoll operation submittedUrl p = none) →
        waitForDepositResult operation submittedUrl polls = noSignalOutcome operation)
    ∧ (∀ operation, (noSignalOutcome operation).state = ResultState.unknown)
    ∧ ResultState.unknown ≠ ResultState.error
    ∧ (∀ (operation : FundsTransactionOperation) (submittedUrl : String)
        (p : PollObservation) (rest : List PollObservation) (t : String),
        p.errorText = some t → (jsTrim t).isEmpty = false →
        waitForDepositResult operation submittedUrl (p :: rest) =
          { state := ResultState.error, reason := jsTrim t })
    ∧ (∀ (operation : FundsTransactionOperation) (submittedUrl : String)
        (p : PollObservation) (rest : List PollObservation) (t : String),
        p.errorText = none → p.successText = some t → (jsTrim t).isEmpty = false →
        waitForDepositResult operation submittedUrl (p :: rest) =
          { state := ResultState.success, reason := jsTrim t })
    ∧ (∀ (operation : FundsTransactionOperation) (submittedUrl : String)
        (p : PollObservation) (rest : List PollObservation),
        p.errorText = none → p.successText = none →
        p.currentUrl ≠ submittedUrl →
        strIncludes p.currentUrl (targetPathByOperation operation) = false →
        waitForDepositResult operation submittedUrl (p :: rest) =
          { state := ResultState.success,
            reason := "URL changed after submit: " ++ p.currentUrl })
    ∧ (∀ (operation : FundsTransactionOperation) (submittedUrl : String)
        (pre rest : List PollObservation),
        (∀ p ∈ pre, classifyPoll operation submittedUrl p = none) →
        waitForDepositResult operation submittedUrl (pre ++ rest) =
          waitForDepositResult operation submittedUrl rest) := by
  refine ⟨waitForDepositResult_all_none, fun _ => rfl, by decide, ?_, ?_, ?_,
    waitForDepositResult_skip_leading⟩
  · intro operation submittedUrl p rest t herr htrim
    simp [waitForDepositResult, classifyPoll, herr, htrim]
  · intro operation submittedUrl p rest t herr hsucc htrim
    simp [waitForDepositResult, classifyPoll, herr, hsucc, htrim]
  · intro operation submittedUrl p rest herr hsucc hurl hpath
    simp [waitForDepositResult, classifyPoll, herr, hsucc, hurl, hpath]

/-- Witness for C3: a timed-out poll list yields `unknown`; a poll showing
the error text `"saldo insuficiente"` yields an `error` outcome carrying that
text; a changed URL yields `success`. -/
theorem claim_C3_verify_outcome_classification_witness :
    waitForDepositResult FundsTransactionOperation.carga "https://x/users/deposit/9" [] =
      noSignalOutcome FundsTransactionOperation.carga
    ∧ waitForDepositResult FundsTransactionOperation.carga "https://x/users/deposit/9"
        [{ errorText := some "saldo insuficiente", currentUrl := "https://x/users/deposit/9" }] =
        { state := ResultState.error, reason := jsTrim "saldo insuficiente" }
    ∧ waitForDepositResult FundsTransactionOperation.carga "https://x/users/deposit/9"
        [{ currentUrl := "https://x/users/all" }] =
        { state := ResultState.success,
          reason := "URL changed after submit: " ++ "https://x/users/all" } :=
  ⟨claim_C3_verify_outcome_classification.1 _ _ [] (by intro p hp; cases hp),
   claim_C3_verify_outcome_classification.2.2.2.1 FundsTransactionOperation.carga
     "https://x/users/deposit/9"
     { errorText := some "saldo insuficiente", currentUrl := "https://x/users/deposit/9" }
     [] "saldo insuficiente" rfl (by decide),
   claim_C3_verify_outcome_classification.2.2.2.2.2.1 FundsTransactionOperation.carga
     "https://x/users/deposit/9" { currentUrl := "https://x/users/all" } []
     rfl rfl (by decide) (by decide)⟩

end Verify

namespace Verify

open Jobs (JobStepStatus JobStepResult)

theorem reconcileBalance_cases (env : FallbackEnv) (expected : Option ℚ)
    (s : JobStepResult) (r : Bool) :
    (expected = none ∧ reconcileBalance env expected s r =
        { step := s, resubmitted := r, reconciled := false })
    ∨ (∃ e b, expected = some e ∧ env.balance = Except.ok b ∧ |b - e| < 1 / 200 ∧
        reconcileBalance env expected s r =
          { step :=
              { name := env.stepName, status := JobStepStatus.ok,
                startedAt := s.startedAt, finishedAt := env.t4,
                artifactPath := s.artifactPath, error := none }
            resubmitted := r, reconciled := true })
    ∨ ((∃ e, expected = some e) ∧ reconcileBalance env expected s r =
        { step := s, resubmitted := r, reconciled := true }) := by
  rcases expected with _ | e
  · exact Or.inl ⟨rfl, by simp [reconcileBalance]⟩
  · rcases henv : env.balance with msg | b
    · refine Or.inr (Or.inr ⟨⟨e, rfl⟩, ?_⟩)
      simp [reconcileBalance, henv]
    · by_cases htol : |b - e| < 1 / 200
      · refine Or.inr (Or.inl ⟨e, b, rfl, rfl, htol, ?_⟩)
        simp only [reconcileBalance, henv]
        rw [if_pos htol]
      · refine Or.inr (Or.inr ⟨⟨e, rfl⟩, ?_⟩)
        simp only [reconcileBalance, henv]
        rw [if_neg htol]

theorem verifyWithRetryAndBalanceFallback_cases
    (operation : FundsTransactionOperation) (amount beforeBalance : Option ℚ)
    (env : FallbackEnv) :
    (noSignalGate operation env = false ∧
        verifyWithRetryAndBalanceFallback operation amount beforeBalance env =
          { step := firstVerifyStep operation env, resubmitted := false, reconciled := false })
    ∨ (noSignalGate operation env = true ∧ stillInOpPage operation env = true ∧
        env.retrySubmitThrows = false ∧
        (retriedVerifyStep operation env).status = JobStepStatus.ok ∧
        verifyWithRetryAndBalanceFallback operation amount beforeBalance env =
          { step := { retriedVerifyStep operation env with error := none },
            resubmitted := true, reconciled := false })
    ∨ (noSignalGate operation env = true ∧ stillInOpPage operation env = true ∧
        env.retrySubmitThrows = false ∧
        (retriedVerifyStep operation env).status ≠ JobStepStatus.ok ∧
        verifyWithRetryAndBalanceFallback operation amount beforeBalance env =
          reconcileBalance env (computeExpectedUserBalance operation amount beforeBalance)
            (retriedVerifyStep operation env) true)
    ∨ (noSignalGate operation env = true ∧
        (stillInOpPage operation env = false ∨ env.retrySubmitThrows = true) ∧
        verifyWithRetryAndBalanceFallback operation amount beforeBalance env =
          reconcileBalance env (computeExpectedUserBalance operation amount beforeBalance)
            (firstVerifyStep operation env) false) := by
  by_cases hgate : noSignalGate operation env = true
  · by_cases hstill : stillInOpPage operation env = true
    · by_cases hthrow : env.retrySubmitThrows = true
      · exact Or.inr (Or.inr (Or.inr ⟨hgate, Or.inr hthrow,
          by simp [verifyWithRetryAndBalanceFallback, hgate, hstill, hthrow]⟩))
      · by_cases hok : (retriedVerifyStep operation env).status = JobStepStatus.ok
        · exact Or.inr (Or.inl ⟨hgate, hstill, by simpa using hthrow, hok,
            by simp [verifyWithRetryAndBalanceFallback, hgate, hstill, hthrow, hok]⟩)
        · exact Or.inr (Or.inr (Or.inl ⟨hgate, hstill, by simpa using hthrow, hok,
            by simp [verifyWithRetryAndBalanceFallback, hgate, hstill, hthrow, hok]⟩))
    · exact Or.inr (Or.inr (Or.inr ⟨hgate, Or.inl (by simpa using hstill),
        by simp [verifyWithRetryAndBalanceFallback, hgate, hstill]⟩))
  · exact Or.inl ⟨by simpa using hgate,
      by simp [verifyWithRetryAndBalanceFallback, hgate]⟩

end Verify

namespace Verify

open Jobs (JobStepStatus JobStepResult)

theorem classifyPoll_some_state (operation : FundsTransactionOperation) (u : String)
    (p : PollObservation) (r : DepositOutcome) (h : classifyPoll operation u p = some r) :
    r.state = ResultState.error ∨ r.state = ResultState.success := by
  unfold classifyPoll at h
  split at h
  · cases h; left; rfl
  · split at h
    · cases h; right; rfl
    · split at h
      · cases h; right; rfl
      · cases h

theorem waitForDepositResult_unknown_eq (operation : FundsTransactionOperation)
    (u : String) (polls : List PollObservation)
    (h : (waitForDepositResult operation u polls).state = ResultState.unknown) :
    waitForDepositResult operation u polls = noSignalOutcome operation := by
  induction polls with
  | nil => rfl
  | cons p rest ih =>
    rcases hc : classifyPoll operation u p with _ | r
    · simp only [waitForDepositResult, hc] at h ⊢
      exact ih h
    · simp only [waitForDepositResult, hc] at h ⊢
      rcases classifyPoll_some_state operation u p r hc with hs | hs <;>
        · rw [hs] at h; exact absurd h (by decide)

theorem noSignalGate_of_unknown (operation : FundsTransactionOperation)
    (env : FallbackEnv)
    (h : (waitForDepositResult operation env.submittedUrl env.polls1).state =
      ResultState.unknown) :
    noSignalGate operation env = true := by
  have heq := waitForDepositResult_unknown_eq operation env.submittedUrl env.polls1 h
  simp only [noSignalGate, firstVerifyStep, verifyDepositResultStep, heq]
  cases operation <;> rfl

theorem reconcileBalance_hit (env : FallbackEnv) (e b : ℚ) (s : JobStepResult) (r : Bool)
    (henv : env.balance = Except.ok b) (htol : |b - e| < 1 / 200) :
    reconcileBalance env (some e) s r =
      { step :=
          { name := env.stepName, status := JobStepStatus.ok, startedAt := s.startedAt,
            finishedAt := env.t4, artifactPath := s.artifactPath, error := none }
        resubmitted := r, reconciled := true } := by
  simp only [reconcileBalance, henv]
  rw [if_pos htol]

end Verify

namespace Verify

open Jobs (JobStepStatus JobStepResult)

/-- C2 counterexample. Two deviations from the claim at concrete inputs:
(a) the fallback gate greps the failed step's reason for the sentinel
substring, so a confirmed on-page error whose visible text happens to contain
"No clear success signal detected" still triggers the fallback — the retry
submit is attempted after a confirmed `error` outcome; (b) after a re-submit
whose re-verify fails with a recognized error text, the failed step carries
that retried reason (`"saldo insuficiente"`), not the original inconclusive
reason. -/
theorem claim_C2_counterexample :
    ((waitForDepositResult FundsTransactionOperation.carga "https://x/users/deposit/9"
        [{ errorText := some "fallo: No clear success signal detected",
           currentUrl := "https://x/users/deposit/9" }]).state = ResultState.error
    ∧ (verifyWithRetryAndBalanceFallback FundsTransactionOperation.carga none none
        { stepName := "08-verify-deposit-result"
          submittedUrl := "https://x/users/deposit/9"
          polls1 := [{ errorText := some "fallo: No clear success signal detected",
                       currentUrl := "https://x/users/deposit/9" }]
          urlAfterFirstVerify := "https://x/users/deposit/9"
          retrySubmitThrows := false
          urlAfterRetrySubmit := "https://x/users/deposit/9"
          polls2 := []
          balance := Except.error "balance re-read failed"
          captureOnSuccess := false
          capturedArtifactPath := "" }).resubmitted = true)
    ∧ ((verifyWithRetryAndBalanceFallback FundsTransactionOperation.carga none none
        { stepName := "08-verify-deposit-result"
          submittedUrl := "https://x/users/deposit/9"
          polls1 := []
          urlAfterFirstVerify := "https://x/users/deposit/9"
          retrySubmitThrows := false
          urlAfterRetrySubmit := "https://x/users/deposit/9"
          polls2 := [{ errorText := some "saldo insuficiente",
                       currentUrl := "https://x/users/deposit/9" }]
          balance := Except.error "balance re-read failed"
          captureOnSuccess := false
          capturedArtifactPath := "" }).step.status = JobStepStatus.failed
    ∧ (verifyWithRetryAndBalanceFallback FundsTransactionOperation.carga none none
        { stepName := "08-verify-deposit-result"
          submittedUrl := "https://x/users/deposit/9"
          polls1 := []
          urlAfterFirstVerify := "https://x/users/deposit/9"
          retrySubmitThrows := false
          urlAfterRetrySubmit := "https://x/users/deposit/9"
          polls2 := [{ errorText := some "saldo insuficiente",
                       currentUrl := "https://x/users/deposit/9" }]
          balance := Except.error "balance re-read failed"
          captureOnSuccess := false
          capturedArtifactPath := "" }).step.error = some "saldo insuficiente"
    ∧ (noSignalOutcome FundsTransactionOperation.carga).reason ≠ "saldo insuficiente") := by
  refine ⟨⟨?_, ?_⟩, ?_, ?_, ?_⟩ <;> decide

end Verify

namespace Verify

open Jobs (JobStepStatus JobStepResult)

/-- C2 (amended): the balance-reconciliation fallback runs exactly when the
first verify step failed with a reason containing the no-clear-signal
sentinel (true for every `unknown` outcome; a confirmed on-page error
triggers it only in the degenerate case that its text contains that
sentinel); it performs at most one re-submit, and only when the page URL
still contains the operation path and the submit click does not throw; the
expected balance is `before + amount` for a deposit, `before − amount` for a
withdrawal and `0` for a full withdrawal; a live balance within the absolute
tolerance `0.005` of the expected one yields step success; and a step can
only come out `ok` from a verify success or such a within-tolerance match —
otherwise it stays `failed`, carrying the reason of the last verify attempt
(the original inconclusive reason when no re-submit verify ran). -/
theorem claim_C2_balance_fallback :
    (∀ (operation : FundsTransactionOperation) (amount beforeBalance : Option ℚ)
        (env : FallbackEnv), noSignalGate operation env = false →
        verifyWithRetryAndBalanceFallback operation amount beforeBalance env =
          { step := firstVerifyStep operation env, resubmitted := false,
            reconciled := false })
    ∧ (∀ (operation : FundsTransactionOperation) (env : FallbackEnv),
        (waitForDepositResult operation env.submittedUrl env.polls1).state =
          ResultState.unknown →
        noSignalGate operation env = true)
    ∧ (∀ (operation : FundsTransactionOperation) (amount beforeBalance : Option ℚ)
        (env : FallbackEnv),
        (verifyWithRetryAndBalanceFallback operation amount beforeBalance env).resubmitted
            = true →
        noSignalGate operation env = true ∧ stillInOpPage operation env = true ∧
          env.retrySubmitThrows = false)
    ∧ (∀ amt b : ℚ,
        computeExpectedUserBalance FundsTransactionOperation.carga (some amt) (some b) =
          some (b + amt)
        ∧ computeExpectedUserBalance FundsTransactionOperation.descarga (some amt) (some b) =
          some (b - amt))
    ∧ (∀ (amount : Option ℚ) (b : ℚ),
        computeExpectedUserBalance FundsTransactionOperation.descarga_total amount (some b) =
          some 0)
    ∧ (∀ (operation : FundsTransactionOperation) (amount beforeBalance : Option ℚ)
        (env : FallbackEnv) (e b : ℚ),
        noSignalGate operation env = true →
        computeExpectedUserBalance operation amount beforeBalance = some e →
        env.balance = Except.ok b → |b - e| < 1 / 200 →
        (verifyWithRetryAndBalanceFallback operation amount beforeBalance env).step.status =
          JobStepStatus.ok)
    ∧ (∀ (operation : FundsTransactionOperation) (amount beforeBalance : Option ℚ)
        (env : FallbackEnv),
        (verifyWithRetryAndBalanceFallback operation amount beforeBalance env).step.status =
          JobStepStatus.ok →
        (firstVerifyStep operation env).status = JobStepStatus.ok
        ∨ (retriedVerifyStep operation env).status = JobStepStatus.ok
        ∨ ∃ e b, computeExpectedUserBalance operation amount beforeBalance = some e ∧
            env.balance = Except.ok b ∧ |b - e| < 1 / 200)
    ∧ (∀ (operation : FundsTransactionOperation) (amount beforeBalance : Option ℚ)
        (env : FallbackEnv),
        (verifyWithRetryAndBalanceFallback operation amount beforeBalance env).step.status =
          JobStepStatus.failed →
        (verifyWithRetryAndBalanceFallback operation amount beforeBalance env).step =
          firstVerifyStep operation env
        ∨ (verifyWithRetryAndBalanceFallback operation amount beforeBalance env).step =
          retriedVerifyStep operation env) := by
  refine ⟨?_, noSignalGate_of_unknown, ?_, fun amt b => ⟨rfl, rfl⟩, fun amount b => ?_, ?_, ?_, ?_⟩
  · intro operation amount beforeBalance env h
    simp [verifyWithRetryAndBalanceFallback, h]
  · intro operation amount beforeBalance env h
    rcases verifyWithRetryAndBalanceFallback_cases operation amount beforeBalance env with
      ⟨hg, heq⟩ | ⟨hg, hs, ht, _, heq⟩ | ⟨hg, hs, ht, _, heq⟩ | ⟨hg, hcase, heq⟩
    · rw [heq] at h; cases h
    · exact ⟨hg, hs, ht⟩
    · exact ⟨hg, hs, ht⟩
    · rw [heq] at h
      rcases reconcileBalance_cases env
          (computeExpectedUserBalance operation amount beforeBalance)
          (firstVerifyStep operation env) false with
        ⟨_, heq2⟩ | ⟨e, b, _, _, _, heq2⟩ | ⟨_, heq2⟩ <;>
        · rw [heq2] at h; cases h
  · cases amount <;> rfl
  · intro operation amount beforeBalance env e b hg hexp henv htol
    rcases verifyWithRetryAndBalanceFallback_cases operation amount beforeBalance env with
      ⟨hg0, heq⟩ | ⟨_, _, _, hok, heq⟩ | ⟨_, _, _, _, heq⟩ | ⟨_, _, heq⟩
    · rw [hg] at hg0; cases hg0
    · rw [heq]; exact hok
    · rw [heq, hexp, reconcileBalance_hit env e b _ true henv htol]
    · rw [heq, hexp, reconcileBalance_hit env e b _ false henv htol]
  · intro operation amount beforeBalance env h
    rcases verifyWithRetryAndBalanceFallback_cases operation amount beforeBalance env with
      ⟨_, heq⟩ | ⟨_, _, _, hok, heq⟩ | ⟨_, _, _, _, heq⟩ | ⟨_, _, heq⟩
    · rw [heq] at h; exact Or.inl h
    · exact Or.inr (Or.inl hok)
    · rw [heq] at h
      rcases reconcileBalance_cases env
          (computeExpectedUserBalance operation amount beforeBalance)
          (retriedVerifyStep operation env) true with
        ⟨_, heq2⟩ | ⟨e, b, hexp, henv, htol, heq2⟩ | ⟨_, heq2⟩
      · rw [heq2] at h; exact Or.inr (Or.inl h)
      · exact Or.inr (Or.inr ⟨e, b, hexp, henv, htol⟩)
      · rw [heq2] at h; exact Or.inr (Or.inl h)
    · rw [heq] at h
      rcases reconcileBalance_cases env
          (computeExpectedUserBalance operation amount beforeBalance)
          (firstVerifyStep operation env) false with
        ⟨_, heq2⟩ | ⟨e, b, hexp, henv, htol, heq2⟩ | ⟨_, heq2⟩
      · rw [heq2] at h; exact Or.inl h
      · exact Or.inr (Or.inr ⟨e, b, hexp, henv, htol⟩)
      · rw [heq2] at h; exact Or.inl h
  · intro operation amount beforeBalance env h
    rcases verifyWithRetryAndBalanceFallback_cases operation amount beforeBalance env with
      ⟨_, heq⟩ | ⟨_, _, _, hok, heq⟩ | ⟨_, _, _, _, heq⟩ | ⟨_, _, heq⟩
    · rw [heq]; exact Or.inl rfl
    · rw [heq] at h
      have h' : (retriedVerifyStep operation env).status = JobStepStatus.failed := h
      rw [hok] at h'
      cases h'
    · rw [heq] at h ⊢
      rcases reconcileBalance_cases env
          (computeExpectedUserBalance operation amount beforeBalance)
          (retriedVerifyStep operation env) true with
        ⟨_, heq2⟩ | ⟨e, b, hexp, henv, htol, heq2⟩ | ⟨_, heq2⟩
      · rw [heq2]; exact Or.inr rfl
      · rw [heq2] at h; cases h
      · rw [heq2]; exact Or.inr rfl
    · rw [heq] at h ⊢
      rcases reconcileBalance_cases env
          (computeExpectedUserBalance operation amount beforeBalance)
          (firstVerifyStep operation env) false with
        ⟨_, heq2⟩ | ⟨e, b, hexp, henv, htol, heq2⟩ | ⟨_, heq2⟩
      · rw [heq2]; exact Or.inl rfl
      · rw [heq2] at h; cases h
      · rw [heq2]; exact Or.inl rfl

end Verify

namespace Verify

open Jobs (JobStepStatus)

/-- Witness for C2: a withdrawal of 40 from a balance of 100 whose UI gave no
signal, with the account listing re-read showing 60, is reconciled to a
successful step. -/
theorem claim_C2_balance_fallback_witness :
    (verifyWithRetryAndBalanceFallback FundsTransactionOperation.descarga
      (some 40) (some 100)
      { stepName := "08-verify-withdraw-result"
        submittedUrl := "https://x/users/withdraw/9"
        polls1 := []
        urlAfterFirstVerify := "https://x/other"
        retrySubmitThrows := false
        urlAfterRetrySubmit := "https://x/other"
        polls2 := []
        balance := Except.ok ((100 : ℚ) - 40)
        captureOnSuccess := false
        capturedArtifactPath := "" }).step.status = JobStepStatus.ok :=
  claim_C2_balance_fallback.2.2.2.2.2.1 FundsTransactionOperation.descarga
    (some 40) (some 100)
    { stepName := "08-verify-withdraw-result"
      submittedUrl := "https://x/users/withdraw/9"
      polls1 := []
      urlAfterFirstVerify := "https://x/other"
      retrySubmitThrows := false
      urlAfterRetrySubmit := "https://x/other"
      polls2 := []
      balance := Except.ok ((100 : ℚ) - 40)
      captureOnSuccess := false
      capturedArtifactPath := "" }
    ((100 : ℚ) - 40) ((100 : ℚ) - 40) (by decide) rfl rfl (by simp)

end Verify

namespace Pool

/-- C6: `release()` and `invalidate()` are each idempotent — once `released`
is set, either call is a no-op — the per-key mutex is unlocked by whichever
of them runs first, and `invalidate`'s outcome is independent of whether
session/browser teardown fails (its `close()` rejections are swallowed), so
a later acquirer can never deadlock behind a completed lease. -/
theorem claim_C6_lease_release_invalidate :
    (∀ (now : Nat) (tf : Bool) (s : LeaseState), s.released = true →
        releaseLease now s = s ∧ invalidateLease tf s = s)
    ∧ (∀ (now : Nat) (s : LeaseState), (releaseLease now s).released = true)
    ∧ (∀ (tf : Bool) (s : LeaseState), (invalidateLease tf s).released = true)
    ∧ (∀ (now : Nat) (s : LeaseState), s.released = false →
        (releaseLease now s).lockHeld = false)
    ∧ (∀ (tf : Bool) (s : LeaseState), s.released = false →
        (invalidateLease tf s).lockHeld = false)
    ∧ (∀ (now now' : Nat) (s : LeaseState),
        releaseLease now' (releaseLease now s) = releaseLease now s)
    ∧ (∀ (now : Nat) (tf : Bool) (s : LeaseState),
        invalidateLease tf (releaseLease now s) = releaseLease now s)
    ∧ (∀ (now : Nat) (tf : Bool) (s : LeaseState),
        releaseLease now (invalidateLease tf s) = invalidateLease tf s)
    ∧ (∀ (tf tf' : Bool) (s : LeaseState),
        invalidateLease tf' (invalidateLease tf s) = invalidateLease tf s)
    ∧ (∀ s : LeaseState, invalidateLease true s = invalidateLease false s) := by
  refine ⟨?_, ?_, ?_, ?_, ?_, ?_, ?_, ?_, ?_, ?_⟩ <;>
    intros <;>
    first
      | (rename_i h; simp [releaseLease, invalidateLease, h])
      | (rename_i s; by_cases h : s.released = true <;>
          simp [releaseLease, invalidateLease, h])
  
/-- Witness for C6 at a concrete unreleased lease over a pooled entry. -/
theorem claim_C6_lease_release_invalidate_witness :
    releaseLease 7 (⟨some ⟨"agent|base|h=1|br=1", 3⟩, true, false⟩ : LeaseState) =
      (⟨some ⟨"agent|base|h=1|br=1", 7⟩, false, true⟩ : LeaseState)
    ∧ (releaseLease 7 (⟨some ⟨"agent|base|h=1|br=1", 3⟩, true, false⟩ : LeaseState)).lockHeld
        = false
    ∧ invalidateLease true (⟨some ⟨"agent|base|h=1|br=1", 3⟩, true, false⟩ : LeaseState) =
      invalidateLease false (⟨some ⟨"agent|base|h=1|br=1", 3⟩, true, false⟩ : LeaseState) :=
  ⟨by decide,
   claim_C6_lease_release_invalidate.2.2.2.1 7
     (⟨some ⟨"agent|base|h=1|br=1", 3⟩, true, false⟩ : LeaseState) rfl,
   claim_C6_lease_release_invalidate.2.2.2.2.2.2.2.2.2
     (⟨some ⟨"agent|base|h=1|br=1", 3⟩, true, false⟩ : LeaseState)⟩

end Pool

namespace Pool

theorem get?_append_single (l : List LeaseStatus) (a : LeaseStatus) : ∀ i : Nat,
    (l ++ [a]).get? i =
      if i < l.length then l.get? i else if i = l.length then some a else none := by
  induction l with
  | nil =>
    intro i
    cases i <;> simp
  | cons x xs ih =>
    intro i
    cases i with
    | zero => simp
    | succ n =>
      simp only [List.cons_append, List.get?_cons_succ, ih n, List.length_cons]
      by_cases h : n < xs.length
      · rw [if_pos h, if_pos (Nat.succ_lt_succ h)]
      · rw [if_neg h]
        by_cases h2 : n = xs.length
        · rw [if_pos h2, if_neg (by omega), if_pos (by omega)]
        · rw [if_neg h2, if_neg (by omega), if_neg (by omega)]

theorem get?_some_lt (l : List LeaseStatus) (i : Nat) (a : LeaseStatus)
    (h : l.get? i = some a) : i < l.length := by
  induction l generalizing i with
  | nil => cases h
  | cons x xs ih =>
    cases i with
    | zero => simp
    | succ n =>
      simp only [List.length_cons, Nat.succ_lt_succ_iff]
      exact ih n (by simpa using h)

theorem get?_set_self (l : List LeaseStatus) (i : Nat) (a b : LeaseStatus)
    (h : l.get? i = some b) : (l.set i a).get? i = some a := by
  induction l generalizing i with
  | nil => cases h
  | cons x xs ih =>
    cases i with
    | zero => rfl
    | succ n => simpa using ih n (by simpa using h)

theorem mutexInv_preserved {s t : KeyState} (hinv : MutexInv s) (hstep : PoolStep s t) :
    MutexInv t := by
  obtain ⟨huniq, hfifo⟩ := hinv
  cases hstep with
  | arrive =>
    have hmem : ∀ k, (s ++ [LeaseStatus.waiting]).get? k = some LeaseStatus.holding →
        s.get? k = some LeaseStatus.holding := by
      intro k hk
      rw [get?_append_single] at hk
      split at hk
      · exact hk
      · split at hk
        · cases hk
        · cases hk
    constructor
    · intro i j hi hj
      exact huniq i j (hmem i hi) (hmem j hj)
    · intro i j hji hi
      have hjr := hfifo i j hji (hmem i hi)
      rw [get?_append_single, if_pos (get?_some_lt s j _ hjr)]
      exact hjr
  | proceed i hw hprev =>
    have hother : ∀ k, k ≠ i → (s.set i LeaseStatus.holding).get? k = s.get? k :=
      fun k hk => List.get?_set_ne _ _ (Ne.symm hk)
    have honly : ∀ k, (s.set i LeaseStatus.holding).get? k = some LeaseStatus.holding →
        k = i := by
      intro k hk
      by_cases hki : k = i
      · exact hki
      · rw [hother k hki] at hk
        rcases Nat.lt_or_ge k i with hlt | hge
        · rw [hprev k hlt] at hk
          cases hk
        · have hgt : i < k := lt_of_le_of_ne hge (fun he => hki he.symm)
          have hrel := hfifo k i hgt hk
          rw [hw] at hrel
          cases hrel
    constructor
    · intro a b ha hb
      rw [honly a ha, honly b hb]
    · intro a b hba ha
      have ha' := honly a ha
      subst ha'
      rw [hother b (by omega)]
      exact hprev b hba
  | finish i hh =>
    have hnone : ∀ k, (s.set i LeaseStatus.released).get? k = some LeaseStatus.holding →
        False := by
      intro k hk
      by_cases hki : k = i
      · subst hki
        rw [get?_set_self s k _ _ hh] at hk
        cases hk
      · rw [List.get?_set_ne _ _ (Ne.symm hki)] at hk
        exact hki (huniq k i hk hh)
    exact ⟨fun a b ha _ => (hnone a ha).elim, fun a b _ ha => (hnone a ha).elim⟩

theorem reachable_mutexInv : ∀ {s : KeyState}, Reachable s → MutexInv s := by
  intro s h
  induction h with
  | nil =>
    constructor
    · intro i j hi hj
      simp at hi
    · intro i j hji hi
      simp at hi
  | step hr hstep ih => exact mutexInv_preserved ih hstep

/-- C1: in the promise-chain mutex of `acquireFundsSessionLease`, every
reachable per-key state has at most one holder at any instant, and every
arrival earlier than the holder has already released — waiters are served in
FIFO arrival order, a later acquirer proceeding only once all earlier holds
are resolved (the `proceed` guard of `PoolStep`, which is the resolution
condition of the chained promise). -/
theorem claim_C1_pool_serialization (s : KeyState) (h : Reachable s) :
    (∀ i j, s.get? i = some LeaseStatus.holding →
        s.get? j = some LeaseStatus.holding → i = j)
    ∧ (∀ i j, j < i → s.get? i = some LeaseStatus.holding →
        s.get? j = some LeaseStatus.released) :=
  reachable_mutexInv h

/-- Witness for C1: the state where the first acquirer has released and the
second holds the lease is reachable, and the invariant holds there. -/
theorem claim_C1_pool_serialization_witness :
    Reachable [LeaseStatus.released, LeaseStatus.holding]
    ∧ (∀ i j, j < i →
        ([LeaseStatus.released, LeaseStatus.holding] : KeyState).get? i =
          some LeaseStatus.holding →
        ([LeaseStatus.released, LeaseStatus.holding] : KeyState).get? j =
          some LeaseStatus.released) := by
  have h1 : Reachable [LeaseStatus.waiting] :=
    Reachable.step Reachable.nil (PoolStep.arrive [])
  have h2 : Reachable [LeaseStatus.holding] :=
    Reachable.step h1
      (PoolStep.proceed [LeaseStatus.waiting] 0 rfl
        (fun j hj => absurd hj (Nat.not_lt_zero j)))
  have h3 : Reachable [LeaseStatus.holding, LeaseStatus.waiting] :=
    Reachable.step h2 (PoolStep.arrive [LeaseStatus.holding])
  have h4 : Reachable [LeaseStatus.released, LeaseStatus.waiting] :=
    Reachable.step h3 (PoolStep.finish [LeaseStatus.holding, LeaseStatus.waiting] 0 rfl)
  have h5 : Reachable [LeaseStatus.released, LeaseStatus.holding] :=
    Reachable.step h4
      (PoolStep.proceed [LeaseStatus.released, LeaseStatus.waiting] 1 rfl
        (fun j hj => by
          have hj0 : j = 0 := by omega
          subst hj0
          rfl))
  exact ⟨h5, (claim_C1_pool_serialization _ h5).2⟩

end Pool

namespace Jobs

theorem mapGet_mapSet_self (m : JobMap) (id : String) (e : JobStoreEntry) :
    mapGet (mapSet m id e) id = some e := by
  induction m with
  | nil => simp [mapGet, mapSet, List.find?]
  | cons p rest ih =>
    by_cases h : p.1 == id
    · simp [mapGet, mapSet, h, List.find?]
    · simp only [mapSet, h, Bool.false_eq_true, if_false]
      simpa [mapGet, List.find?, h] using ih

theorem mapGet_mapSet_ne (m : JobMap) (id id' : String) (e : JobStoreEntry)
    (h : id' ≠ id) : mapGet (mapSet m id e) id' = mapGet m id' := by
  have hne : (id == id') = false := by
    simp only [beq_eq_false_iff_ne]
    exact fun he => h he.symm
  induction m with
  | nil => simp [mapGet, mapSet, List.find?, hne]
  | cons p rest ih =>
    by_cases hp : p.1 == id
    · have hpne : (p.1 == id') = false := by
        simp only [beq_eq_false_iff_ne]
        rw [beq_iff_eq] at hp
        rw [hp]
        exact fun he => h he.symm
      simp [mapGet, mapSet, hp, List.find?, hne, hpne]
    · simp only [mapSet, hp, Bool.false_eq_true, if_false]
      by_cases hq : p.1 == id'
      · simp [mapGet, List.find?, hq]
      · simpa [mapGet, List.find?, hq] using ih

theorem mapGet_cleanup (now ttlMs : Nat) (m : JobMap) (id : String) :
    mapGet (cleanupExpiredJobs now ttlMs m) id =
      (mapGet m id).map (markExpiredIfNeeded now ttlMs) := by
  induction m with
  | nil => rfl
  | cons p rest ih =>
    by_cases h : p.1 == id
    · simp [cleanupExpiredJobs, mapGet, List.find?, h]
    · simpa [cleanupExpiredJobs, mapGet, List.find?, h] using ih

theorem markExpiredIfNeeded_cases (now ttlMs : Nat) (e : JobStoreEntry) :
    markExpiredIfNeeded now ttlMs e = e
    ∨ (isTerminal e.status = true ∧ e.status ≠ JobStatus.expired ∧
        markExpiredIfNeeded now ttlMs e = { e with status := JobStatus.expired }) := by
  unfold markExpiredIfNeeded
  split
  · exact Or.inl rfl
  · rename_i hcond
    split
    · exact Or.inl rfl
    · split
      · right
        simp only [Bool.or_eq_true, Bool.not_eq_true', decide_eq_true_eq, not_or,
          Bool.not_eq_false] at hcond
        exact ⟨hcond.1, hcond.2, rfl⟩
      · exact Or.inl rfl

end Jobs

namespace Jobs

theorem statusAdvances_refl (s : JobStatus) : statusAdvances s s = true := by
  cases s <;> rfl

/-- C7: every record-level operation of the `JobManager` — the fresh `queued`
record written by `enqueue`, the limiter admission, the executor completion
writes, and the expiry check performed by both `getById` and the periodic
sweep — only moves `status` forward along
`queued → running → {succeeded|failed} → expired`; and the
terminal-to-expired transition rewrites only `status`, leaving every other
field (`result`, `error`, `steps`, `artifactPaths`, ids and timestamps)
unchanged. `getById` and the sweep touch entries exactly through
`markExpiredIfNeeded`. -/
theorem claim_C7_status_forward :
    (∀ (id jobType : String) (createdAt : Option Nat),
        (enqueueEntry id jobType createdAt).status = JobStatus.queued)
    ∧ (∀ (op : ManagerOp) (e : JobStoreEntry), opGuard op e →
        statusAdvances e.status (applyManagerOp op e).status = true)
    ∧ (∀ (now ttlMs : Nat) (e : JobStoreEntry),
        (markExpiredIfNeeded now ttlMs e).id = e.id
        ∧ (markExpiredIfNeeded now ttlMs e).jobType = e.jobType
        ∧ (markExpiredIfNeeded now ttlMs e).createdAt = e.createdAt
        ∧ (markExpiredIfNeeded now ttlMs e).startedAt = e.startedAt
        ∧ (markExpiredIfNeeded now ttlMs e).finishedAt = e.finishedAt
        ∧ (markExpiredIfNeeded now ttlMs e).error = e.error
        ∧ (markExpiredIfNeeded now ttlMs e).artifactPaths = e.artifactPaths
        ∧ (markExpiredIfNeeded now ttlMs e).steps = e.steps
        ∧ (markExpiredIfNeeded now ttlMs e).result = e.result)
    ∧ (∀ (now ttlMs : Nat) (e : JobStoreEntry),
        (markExpiredIfNeeded now ttlMs e).status = e.status
        ∨ (isTerminal e.status = true ∧
            (markExpiredIfNeeded now ttlMs e).status = JobStatus.expired))
    ∧ (∀ (now ttlMs : Nat) (m : JobMap) (id id' : String),
        mapGet ((getById now ttlMs m id).2) id' =
          if id' = id then (mapGet m id).map (markExpiredIfNeeded now ttlMs)
          else mapGet m id')
    ∧ (∀ (now ttlMs : Nat) (m : JobMap) (id : String),
        mapGet (cleanupExpiredJobs now ttlMs m) id =
          (mapGet m id).map (markExpiredIfNeeded now ttlMs)) := by
  refine ⟨fun _ _ _ => rfl, ?_, ?_, ?_, ?_, mapGet_cleanup⟩
  · intro op e hg
    cases op with
    | admitRun t =>
      have hg' : e.status = JobStatus.queued := hg
      simp [applyManagerOp, statusAdvances, hg']
    | completeOk t res =>
      have hg' : e.status = JobStatus.running := hg
      simp [applyManagerOp, statusAdvances, hg']
    | completeErr t msg aOpt sOpt =>
      have hg' : e.status = JobStatus.running := hg
      simp [applyManagerOp, statusAdvances, hg']
    | expireCheck now ttlMs =>
      show statusAdvances e.status (markExpiredIfNeeded now ttlMs e).status = true
      rcases markExpiredIfNeeded_cases now ttlMs e with heq | ⟨_, _, heq⟩
      · rw [heq]
        exact statusAdvances_refl e.status
      · rw [heq]
        cases e.status <;> rfl
  · intro now ttlMs e
    rcases markExpiredIfNeeded_cases now ttlMs e with heq | ⟨_, _, heq⟩ <;>
      rw [heq] <;> exact ⟨rfl, rfl, rfl, rfl, rfl, rfl, rfl, rfl, rfl⟩
  · intro now ttlMs e
    rcases markExpiredIfNeeded_cases now ttlMs e with heq | ⟨ht, _, heq⟩
    · exact Or.inl (by rw [heq])
    · exact Or.inr ⟨ht, by rw [heq]⟩
  · intro now ttlMs m id id'
    unfold getById
    rcases hget : mapGet m id with _ | e
    · by_cases hid : id' = id
      · subst hid
        rw [if_pos rfl]
        simp [hget]
      · rw [if_neg hid]
    · by_cases hid : id' = id
      · subst hid
        rw [if_pos rfl]
        exact mapGet_mapSet_self m id' _
      · rw [if_neg hid]
        exact mapGet_mapSet_ne m id id' _ hid

/-- Witness for C7: admitting a concrete queued record advances it to
`running`, and expiring a finished record changes only its status. -/
theorem claim_C7_status_forward_witness :
    statusAdvances JobStatus.queued
      (applyManagerOp (ManagerOp.admitRun 5)
        (enqueueEntry "job-1" "deposit" (some 0))).status = true
    ∧ (markExpiredIfNeeded 10 3
        { id := "job-1", jobType := "deposit", status := JobStatus.succeeded,
          createdAt := some 0, finishedAt := some 1 }).result =
      ({ id := "job-1", jobType := "deposit", status := JobStatus.succeeded,
          createdAt := some 0, finishedAt := some 1 } : JobStoreEntry).result :=
  ⟨claim_C7_status_forward.2.1 (ManagerOp.admitRun 5)
      (enqueueEntry "job-1" "deposit" (some 0)) rfl,
   (claim_C7_status_forward.2.2.1 10 3
      { id := "job-1", jobType := "deposit", status := JobStatus.succeeded,
        createdAt := some 0, finishedAt := some 1 }).2.2.2.2.2.2.2.2⟩

end Jobs

namespace Jobs

/-- C8: a `getById` call on a terminal (`succeeded` or `failed`) job whose
`finishedAt` is older than the TTL returns the record with status `expired`
and stores it back as expired — without any background sweep having run. -/
theorem claim_C8_getById_expires (now ttlMs f : Nat) (m : JobMap) (id : String)
    (e : JobStoreEntry) (hget : mapGet m id = some e)
    (hterm : e.status = JobStatus.succeeded ∨ e.status = JobStatus.failed)
    (hfin : e.finishedAt = some f) (hold : ttlMs < now - f) :
    getById now ttlMs m id =
      (some { e with status := JobStatus.expired },
        mapSet m id { e with status := JobStatus.expired }) := by
  have hmark : markExpiredIfNeeded now ttlMs e = { e with status := JobStatus.expired } := by
    unfold markExpiredIfNeeded
    have h1 : (!isTerminal e.status || decide (e.status = JobStatus.expired)) = false := by
      rcases hterm with h | h <;> simp [isTerminal, h]
    rw [h1]
    simp only [Bool.false_eq_true, if_false, hfin]
    simp [Option.orElse, hold]
  simp only [getById, hget, hmark]

/-- Witness for C8 at a concrete one-entry store: a succeeded job finished at
instant 1 with TTL 3 queried at instant 10 comes back (and is stored)
expired. -/
theorem claim_C8_getById_expires_witness :
    getById 10 3
      [("job-1", { id := "job-1", jobType := "deposit", status := JobStatus.succeeded,
                   createdAt := some 0, finishedAt := some 1 })] "job-1" =
      (some { id := "job-1", jobType := "deposit", status := JobStatus.expired,
              createdAt := some 0, finishedAt := some 1 },
       [("job-1", { id := "job-1", jobType := "deposit", status := JobStatus.expired,
                    createdAt := some 0, finishedAt := some 1 })]) :=
  claim_C8_getById_expires 10 3 1
    [("job-1", { id := "job-1", jobType := "deposit", status := JobStatus.succeeded,
                 createdAt := some 0, finishedAt := some 1 })] "job-1"
    { id := "job-1", jobType := "deposit", status := JobStatus.succeeded,
      createdAt := some 0, finishedAt := some 1 }
    rfl (Or.inl rfl) rfl (by decide)

end Jobs

namespace Jobs

/-- C9: the catch branch of `enqueue` converts a throwing executor into a
`failed` record carrying the exception's message as `error`, the
`steps`/`artifactPaths` arrays attached to the thrown error when present
(empty arrays otherwise) and no `result` — and it leaves every other job's
record untouched. The branch is a total function of the thrown data, so no
executor exception escapes the `JobManager`. -/
theorem claim_C9_executor_failure_contained (m : JobMap) (id : String)
    (finishedAt : Nat) (message : String) (errArtifactPaths : Option (List String))
    (errSteps : Option (List JobStepResult)) (e : JobStoreEntry)
    (hget : mapGet m id = some e) :
    mapGet (completeErr m id finishedAt message errArtifactPaths errSteps) id =
      some { e with
             status := JobStatus.failed
             finishedAt := some finishedAt
             error := some message
             artifactPaths := errArtifactPaths.getD []
             steps := errSteps.getD []
             result := none }
    ∧ ∀ id', id' ≠ id →
        mapGet (completeErr m id finishedAt message errArtifactPaths errSteps) id' =
          mapGet m id' := by
  constructor
  · simp only [completeErr, hget]
    exact mapGet_mapSet_self m id _
  · intro id' hid
    simp only [completeErr, hget]
    exact mapGet_mapSet_ne m id id' _ hid

/-- Witness for C9: a concrete running job whose executor throws an error
with one attached step becomes `failed` with that data, and an unrelated
job's record is unchanged. -/
theorem claim_C9_executor_failure_contained_witness :
    mapGet
      (completeErr
        [("job-1", { id := "job-1", jobType := "deposit", status := JobStatus.running,
                     createdAt := some 0, startedAt := some 1 }),
         ("job-2", { id := "job-2", jobType := "login", status := JobStatus.queued,
                     createdAt := some 0 })]
        "job-1" 9 "boom" (some ["a.png"])
        (some [{ name := "01-auth", status := JobStepStatus.failed,
                 startedAt := 1, finishedAt := 2 }])) "job-1" =
      some { id := "job-1", jobType := "deposit", status := JobStatus.failed,
             createdAt := some 0, startedAt := some 1, finishedAt := some 9,
             error := some "boom", artifactPaths := ["a.png"],
             steps := [{ name := "01-auth", status := JobStepStatus.failed,
                         startedAt := 1, finishedAt := 2 }], result := none }
    ∧ mapGet
      (completeErr
        [("job-1", { id := "job-1", jobType := "deposit", status := JobStatus.running,
                     createdAt := some 0, startedAt := some 1 }),
         ("job-2", { id := "job-2", jobType := "login", status := JobStatus.queued,
                     createdAt := some 0 })]
        "job-1" 9 "boom" (some ["a.png"])
        (some [{ name := "01-auth", status := JobStepStatus.failed,
                 startedAt := 1, finishedAt := 2 }])) "job-2" =
      mapGet
        [("job-1", { id := "job-1", jobType := "deposit", status := JobStatus.running,
                     createdAt := some 0, startedAt := some 1 }),
         ("job-2", { id := "job-2", jobType := "login", status := JobStatus.queued,
                     createdAt := some 0 })] "job-2" :=
  ⟨(claim_C9_executor_failure_contained
      [("job-1", { id := "job-1", jobType := "deposit", status := JobStatus.running,
                   createdAt := some 0, startedAt := some 1 }),
       ("job-2", { id := "job-2", jobType := "login", status := JobStatus.queued,
                   createdAt := some 0 })]
      "job-1" 9 "boom" (some ["a.png"])
      (some [{ name := "01-auth", status := JobStepStatus.failed,
               startedAt := 1, finishedAt := 2 }])
      { id := "job-1", jobType := "deposit", status := JobStatus.running,
        createdAt := some 0, startedAt := some 1 } rfl).1,
   (claim_C9_executor_failure_contained
      [("job-1", { id := "job-1", jobType := "deposit", status := JobStatus.running,
                   createdAt := some 0, startedAt := some 1 }),
       ("job-2", { id := "job-2", jobType := "login", status := JobStatus.queued,
                   createdAt := some 0 })]
      "job-1" 9 "boom" (some ["a.png"])
      (some [{ name := "01-auth", status := JobStepStatus.failed,
               startedAt := 1, finishedAt := 2 }])
      { id := "job-1", jobType := "deposit", status := JobStatus.running,
        createdAt := some 0, startedAt := some 1 } rfl).2 "job-2" (by decide)⟩

end Jobs
